import Mathlib

/-!
Verification of the vspipeline utilities program.

This file gives a shallow embedding, in Lean 4, of the pure computational
core of the program in tasks/utils/vspipeline_utilities.py:

* sample-metadata parsing and the sample relationship (group) resolver,
* the VSProject template resolver (axis lookup, table-option collection,
  table-id selection, import-algorithm flags),
* the manifest (vspipeline_inputs.json) merge and append operations,
* the vsbatch command-sequence generator,
* the CNV copy-number classification.

Python dictionaries are modelled by association lists with distinct keys,
JSON documents by an inductive type of JSON values, Python exceptions by
the Except monad, and Python floats by exact rationals.  Python string
primitives used by the program (strip, lower, replace, startswith, isdigit,
the substring test, lexicographic comparison) are re-implemented on
character lists so that every definition evaluates inside the kernel.
-/

/-! ## Python string primitives on character lists -/

/-- Is the first list a leading segment of the second? (Python s.startswith.) -/
def hasPre : List Char → List Char → Bool
  | [], _ => true
  | _ :: _, [] => false
  | p :: ps, c :: cs => (p == c) && hasPre ps cs

/-- Does the pattern occur as a contiguous segment? (Python `pat in s`.) -/
def hasSub (pat : List Char) : List Char → Bool
  | [] => hasPre pat []
  | c :: cs => hasPre pat (c :: cs) || hasSub pat cs

/-- Python `pat in s` on strings. -/
def strIn (pat s : String) : Bool := hasSub pat.data s.data

/-- Python s.startswith(pat). -/
def pyStartsWith (s pat : String) : Bool := hasPre pat.data s.data

/-- Replace every occurrence of a nonempty pattern, scanning left to
right (Python str.replace for a nonempty pattern).  Structural recursion
on a fuel that starts at the input length, so the definition reduces
inside the kernel; each step consumes at least one character, so the fuel
never runs out on the way to the empty list. -/
def replAll (old new : List Char) : Nat → List Char → List Char
  | 0, l => l
  | _ + 1, [] => []
  | fuel + 1, c :: rest =>
    if old ≠ [] ∧ hasPre old (c :: rest) then
      new ++ replAll old new fuel ((c :: rest).drop old.length)
    else
      c :: replAll old new fuel rest

/-- Python s.replace(old, new) (nonempty old). -/
def pyReplace (s old new : String) : String :=
  String.mk (replAll old.data new.data s.data.length s.data)

/-- Python str.isdigit restricted to ASCII content:
nonempty and all characters are digits. -/
def pyIsdigit (s : String) : Bool := s ≠ "" && s.data.all Char.isDigit

/-- Python str.strip: drop whitespace from both ends. -/
def pyStrip (s : String) : String :=
  String.mk (((s.data.dropWhile Char.isWhitespace).reverse.dropWhile Char.isWhitespace).reverse)

/-- Python str.lower (character-wise). -/
def pyLower (s : String) : String := String.mk (s.data.map Char.toLower)

/-- Lexicographic (code-point) strict order on character lists,
Python string `<`. -/
def lexLt : List Char → List Char → Bool
  | [], [] => false
  | [], _ :: _ => true
  | _ :: _, [] => false
  | a :: as, b :: bs =>
    if a.toNat < b.toNat then true
    else if b.toNat < a.toNat then false
    else lexLt as bs

/-- Lexicographic (code-point) order on character lists, Python string `<=`. -/
def lexLe : List Char → List Char → Bool
  | [], _ => true
  | _ :: _, [] => false
  | a :: as, b :: bs =>
    if a.toNat < b.toNat then true
    else if b.toNat < a.toNat then false
    else lexLe as bs

/-- Python string `<=` as a proposition. -/
def strLe (a b : String) : Prop := lexLe a.data b.data = true

instance : DecidableRel strLe := fun a b => instDecidableEqBool (lexLe a.data b.data) true

/-- Python string `<` as a Bool. -/
def strLt (a b : String) : Bool := lexLt a.data b.data

/-- Python sorted() on strings (all our uses sort lists of distinct strings,
for which every correct sort agrees). -/
def sortStrings (l : List String) : List String := List.insertionSort strLe l

/-- Python min over a nonempty sequence (first element, then keep the
smaller, preferring the incumbent on ties). -/
def pyMinFrom (h : String) (t : List String) : String :=
  t.foldl (fun a b => if strLt b a then b else a) h

/-! ## Association lists as Python dicts -/

/-- Lookup in an association list (Python dict lookup; keys are unique). -/
def alookup {α : Type} : List (String × α) → String → Option α
  | [], _ => none
  | (k, v) :: rest, key => if k = key then some v else alookup rest key

/-- Python dict assignment d[k] = v: replace in place if the key exists,
else append at the end (insertion order semantics). -/
def dictSet {α : Type} : List (String × α) → String → α → List (String × α)
  | [], k, v => [(k, v)]
  | (k0, v0) :: rest, k, v =>
    if k0 = k then (k, v) :: rest else (k0, v0) :: dictSet rest k v

/-! ## CNV classification (update_cnv_file) -/

/-- Python round() (round half to even) on an exact rational. -/
def pyRound (q : ℚ) : ℤ :=
  if q - ⌊q⌋ < 1/2 then ⌊q⌋
  else if 1/2 < q - ⌊q⌋ then ⌊q⌋ + 1
  else if Even ⌊q⌋ then ⌊q⌋ else ⌊q⌋ + 1

/-- The CNV State classification of update_cnv_file, on the parsed
copy-number value. -/
def cnvStateOf (v : ℚ) : String :=
  if pyRound v = 2 then "Normal"
  else if pyRound v = 0 then "Deletion"
  else if pyRound v = 1 then "Het Deletion"
  else if 3 ≤ pyRound v then "Duplicate"
  else "?"

/-- The per-row update of update_cnv_file: the classification is appended
as one extra field at the end of the row. -/
def cnvUpdateRow (fields : List String) (v : ℚ) : List String :=
  fields ++ [cnvStateOf v]

/-! ## Manifest documents and the append operation (update_vspipeline_json) -/

/-- The fixed file-type enumeration of the manifest schema. -/
inductive FileType where
  | multiverse
  | cnv
  | bnd
  | region
deriving DecidableEq

/-- The JSON key of a file type. -/
def ftKey : FileType → String
  | .multiverse => "multiverse"
  | .cnv => "cnv"
  | .bnd => "bnd"
  | .region => "region"

/-- Per-sample file lists, one ordered list per file type. -/
structure Files (α : Type) where
  multiverse : List α
  cnv : List α
  bnd : List α
  region : List α
deriving DecidableEq

/-- Read one file-type list. -/
def Files.get {α : Type} (f : Files α) : FileType → List α
  | .multiverse => f.multiverse
  | .cnv => f.cnv
  | .bnd => f.bnd
  | .region => f.region

/-- Replace one file-type list. -/
def Files.set {α : Type} (f : Files α) : FileType → List α → Files α
  | .multiverse, l => { f with multiverse := l }
  | .cnv, l => { f with cnv := l }
  | .bnd, l => { f with bnd := l }
  | .region, l => { f with region := l }

/-- The fresh all-empty entry created for a sample on first touch. -/
def emptyFiles {α : Type} : Files α := ⟨[], [], [], []⟩

/-- The samples table of a manifest document: sample name to file lists. -/
abbrev ManifestDoc := List (String × Files String)

/-- The list stored for (sample, file type) in a manifest document
(empty when the sample has no entry yet). -/
def storedList (doc : ManifestDoc) (s : String) (ft : FileType) : List String :=
  ((alookup doc s).getD emptyFiles).get ft

/-- The pure core of update_vspipeline_json: ensure the sample entry
exists (all four lists empty), then append the path to the requested
file-type list only if it is not already present. -/
def updateVspipelineJson (doc : ManifestDoc) (s : String) (ft : FileType) (p : String) :
    ManifestDoc :=
  let sf := (alookup doc s).getD emptyFiles
  let lst := sf.get ft
  dictSet doc s (sf.set ft (if p ∈ lst then lst else lst ++ [p]))

/-! ## Sample metadata parsing (_parse_sample_file) -/

/-- Per-sample metadata values, keyed by sample name. -/
abbrev SData := List (String × List String)

/-- Parse one data row: column 0 is the sample name (stripped; empty rows
and empty names are skipped), the remaining columns are stripped metadata
values with empty values discarded. -/
def parseRow (row : List String) : Option (String × List String) :=
  match row with
  | [] => none
  | c0 :: rest =>
    if pyStrip c0 = "" then none
    else some (pyStrip c0,
      rest.filterMap (fun v => if pyStrip v = "" then none else some (pyStrip v)))

/-- Fold one parsed row into the accumulated sample data and sample set:
the dict entry is overwritten (last row wins), the set gains the name once. -/
def parseStep (acc : SData × List String) (row : List String) : SData × List String :=
  match parseRow row with
  | none => acc
  | some (n, meta) =>
    (dictSet acc.1 n meta, if n ∈ acc.2 then acc.2 else acc.2 ++ [n])

/-- Parse the data rows of a metadata table into (sample data, Sample Set). -/
def parseSampleRows (rows : List (List String)) : SData × List String :=
  rows.foldl parseStep ([], [])

/-- _parse_sample_file on a whole table: the first row is the header and is
skipped; a table with no rows at all raises (StopIteration), modelled as
none. -/
def parseSampleFile (rows : List (List String)) : Option (SData × List String) :=
  match rows with
  | [] => none
  | _header :: body => some (parseSampleRows body)

/-- Cohort mode of find_sample_relationships: a single group named
"cohort" holding all samples sorted, or no group at all when the Sample
Set is empty. -/
def cohortRelationships (allS : List String) : List (String × List String) :=
  if allS = [] then [] else [("cohort", sortStrings allS)]

/-- find_sample_relationships with cohort mode on a whole table. -/
def findRelationshipsCohort (rows : List (List String)) :
    Option (List (String × List String)) :=
  (parseSampleFile rows).map (fun x => cohortRelationships x.2)

/-! ## JSON values and Python semantics on them -/

/-- JSON values as loaded by json.load.  Numbers only ever flow through
truthiness tests and equality here, so an integer carrier suffices. -/
inductive JValue where
  | null
  | bool (b : Bool)
  | num (n : Int)
  | str (s : String)
  | arr (elems : List JValue)
  | obj (entries : List (String × JValue))

mutual

/-- Decidable equality on JSON values (hand-rolled: deriving does not
handle the nested lists). -/
def jdecEq : (a b : JValue) → Decidable (a = b)
  | .null, .null => isTrue rfl
  | .null, .bool _ => isFalse (fun h => JValue.noConfusion h)
  | .null, .num _ => isFalse (fun h => JValue.noConfusion h)
  | .null, .str _ => isFalse (fun h => JValue.noConfusion h)
  | .null, .arr _ => isFalse (fun h => JValue.noConfusion h)
  | .null, .obj _ => isFalse (fun h => JValue.noConfusion h)
  | .bool _, .null => isFalse (fun h => JValue.noConfusion h)
  | .bool a, .bool b =>
    if h : a = b then isTrue (by rw [h]) else isFalse (fun e => h (by cases e; rfl))
  | .bool _, .num _ => isFalse (fun h => JValue.noConfusion h)
  | .bool _, .str _ => isFalse (fun h => JValue.noConfusion h)
  | .bool _, .arr _ => isFalse (fun h => JValue.noConfusion h)
  | .bool _, .obj _ => isFalse (fun h => JValue.noConfusion h)
  | .num _, .null => isFalse (fun h => JValue.noConfusion h)
  | .num _, .bool _ => isFalse (fun h => JValue.noConfusion h)
  | .num a, .num b =>
    if h : a = b then isTrue (by rw [h]) else isFalse (fun e => h (by cases e; rfl))
  | .num _, .str _ => isFalse (fun h => JValue.noConfusion h)
  | .num _, .arr _ => isFalse (fun h => JValue.noConfusion h)
  | .num _, .obj _ => isFalse (fun h => JValue.noConfusion h)
  | .str _, .null => isFalse (fun h => JValue.noConfusion h)
  | .str _, .bool _ => isFalse (fun h => JValue.noConfusion h)
  | .str _, .num _ => isFalse (fun h => JValue.noConfusion h)
  | .str a, .str b =>
    if h : a = b then isTrue (by rw [h]) else isFalse (fun e => h (by cases e; rfl))
  | .str _, .arr _ => isFalse (fun h => JValue.noConfusion h)
  | .str _, .obj _ => isFalse (fun h => JValue.noConfusion h)
  | .arr _, .null => isFalse (fun h => JValue.noConfusion h)
  | .arr _, .bool _ => isFalse (fun h => JValue.noConfusion h)
  | .arr _, .num _ => isFalse (fun h => JValue.noConfusion h)
  | .arr _, .str _ => isFalse (fun h => JValue.noConfusion h)
  | .arr xs, .arr ys =>
    match jdecEqList xs ys with
    | isTrue h => isTrue (by rw [h])
    | isFalse h => isFalse (fun e => h (by cases e; rfl))
  | .arr _, .obj _ => isFalse (fun h => JValue.noConfusion h)
  | .obj _, .null => isFalse (fun h => JValue.noConfusion h)
  | .obj _, .bool _ => isFalse (fun h => JValue.noConfusion h)
  | .obj _, .num _ => isFalse (fun h => JValue.noConfusion h)
  | .obj _, .str _ => isFalse (fun h => JValue.noConfusion h)
  | .obj _, .arr _ => isFalse (fun h => JValue.noConfusion h)
  | .obj xs, .obj ys =>
    match jdecEqPairs xs ys with
    | isTrue h => isTrue (by rw [h])
    | isFalse h => isFalse (fun e => h (by cases e; rfl))

/-- Decidable equality on lists of JSON values. -/
def jdecEqList : (a b : List JValue) → Decidable (a = b)
  | [], [] => isTrue rfl
  | [], _ :: _ => isFalse (fun h => List.noConfusion h)
  | _ :: _, [] => isFalse (fun h => List.noConfusion h)
  | x :: xs, y :: ys =>
    match jdecEq x y with
    | isFalse h => isFalse (fun e => h (by cases e; rfl))
    | isTrue h1 =>
      match jdecEqList xs ys with
      | isTrue h2 => isTrue (by rw [h1, h2])
      | isFalse h2 => isFalse (fun e => h2 (by cases e; rfl))

/-- Decidable equality on JSON-object entry lists. -/
def jdecEqPairs : (a b : List (String × JValue)) → Decidable (a = b)
  | [], [] => isTrue rfl
  | [], _ :: _ => isFalse (fun h => List.noConfusion h)
  | _ :: _, [] => isFalse (fun h => List.noConfusion h)
  | (k1, v1) :: xs, (k2, v2) :: ys =>
    if hk : k1 = k2 then
      match jdecEq v1 v2 with
      | isFalse h => isFalse (fun e => h (by cases e; rfl))
      | isTrue h1 =>
        match jdecEqPairs xs ys with
        | isTrue h2 => isTrue (by rw [hk, h1, h2])
        | isFalse h2 => isFalse (fun e => h2 (by cases e; rfl))
    else isFalse (fun e => hk (by cases e; rfl))

end

instance : DecidableEq JValue := jdecEq

/-- Lookup of a key in JSON-object entries (Python dicts have unique
keys, so the first match is the match). -/
def objGet : List (String × JValue) → String → Option JValue
  | [], _ => none
  | (k, v) :: rest, key => if k = key then some v else objGet rest key

/-- Python d.get(key, default): requires a dict, else AttributeError. -/
def jGet (v : JValue) (key : String) (dflt : JValue) : Except Unit JValue :=
  match v with
  | .obj kvs => .ok ((objGet kvs key).getD dflt)
  | _ => .error ()

/-- Python iteration `for x in v`: lists yield items, dicts yield their
keys, strings yield one-character strings; other values raise. -/
def pyIter : JValue → Except Unit (List JValue)
  | .arr xs => .ok xs
  | .obj kvs => .ok (kvs.map (fun kv => .str kv.1))
  | .str s => .ok (s.data.map (fun c => .str (String.mk [c])))
  | _ => .error ()

/-- Python truthiness of a JSON value. -/
def jTruthy : JValue → Bool
  | .null => false
  | .bool b => b
  | .num n => n != 0
  | .str s => s != ""
  | .arr xs => !xs.isEmpty
  | .obj kvs => !kvs.isEmpty

/-- Python requires hashable values as dict keys / set members:
lists and dicts raise TypeError. -/
def jHashable : JValue → Bool
  | .arr _ => false
  | .obj _ => false
  | _ => true

/-- Python str(v) is only available as-is when v is a string; the
template code calls string methods on such values, raising otherwise. -/
def asStr : JValue → Except Unit String
  | .str s => .ok s
  | _ => .error ()

/-! ## Manifest merge (_merge_vspipeline_json_files) -/

/-- The merged view: sample name to per-type JSON path lists (paths are
kept as raw JSON values, mirroring the Python code). -/
abbrev MergedData := List (String × Files JValue)

/-- The list held in the merged view for (sample, file type). -/
def mergedList (m : MergedData) (sn : String) (ft : FileType) : List JValue :=
  ((alookup m sn).getD emptyFiles).get ft

/-- Append the given paths to an accumulator, skipping paths already
present (exact equality), preserving first-seen order. -/
def addFiles (cur : List JValue) (files : List JValue) : List JValue :=
  files.foldl (fun acc fp => if fp ∈ acc then acc else acc ++ [fp]) cur

/-- First-occurrence deduplication of a list (the specification-side
description of the merge order contract). -/
def dedupFirst (l : List JValue) : List JValue := addFiles [] l

/-- Merge the list of one file type of one sample entry; the lookups on
the sample-info value can raise (caught further out). -/
def mergeOneType (m : MergedData) (sn : String) (si : JValue) (ft : FileType) :
    Except MergedData MergedData :=
  match jGet si (ftKey ft) (.arr []) with
  | .error _ => .error m
  | .ok fj =>
    match pyIter fj with
    | .error _ => .error m
    | .ok files =>
      .ok (dictSet m sn
        (((alookup m sn).getD emptyFiles).set ft (addFiles (mergedList m sn ft) files)))

/-- Merge one (sample name, sample info) pair: create the sample entry if
missing, then merge the four file-type lists in their fixed order.  An
error carries the state reached so far (the Python loop has already
mutated it). -/
def mergeSampleInfo (m : MergedData) (sn : String) (si : JValue) :
    Except MergedData MergedData :=
  match mergeOneType (if (alookup m sn).isSome then m else m ++ [(sn, emptyFiles)])
      sn si .multiverse with
  | .error e => .error e
  | .ok m2 =>
    match mergeOneType m2 sn si .cnv with
    | .error e => .error e
    | .ok m3 =>
      match mergeOneType m3 sn si .bnd with
      | .error e => .error e
      | .ok m4 => mergeOneType m4 sn si .region

/-- Merge all samples of one document body. -/
def mergeSamples (m : MergedData) : List (String × JValue) → Except MergedData MergedData
  | [] => .ok m
  | (sn, si) :: rest =>
    match mergeSampleInfo m sn si with
    | .error m2 => .error m2
    | .ok m2 => mergeSamples m2 rest

/-- Merge one parsed JSON document into the accumulated view; any raised
error is caught and the partial state kept (the Python per-file
`except: continue`). -/
def mergeFile (m : MergedData) (doc : JValue) : MergedData :=
  match jGet doc "samples" (.obj []) with
  | .error _ => m
  | .ok samples =>
    match samples with
    | .obj kvs =>
      match mergeSamples m kvs with
      | .ok m2 => m2
      | .error m2 => m2
    | _ => m

/-- _merge_vspipeline_json_files on a list of parsed documents (a file
that fails to read or parse is simply absent from the list). -/
def mergeVspipelineJsonFiles (docs : List JValue) : MergedData :=
  docs.foldl mergeFile []

/-- The (sample, file type) path list a document carries, as read by the
merge: empty whenever the expected structure is absent. -/
def docFiles (d : JValue) (sn : String) (ft : FileType) : List JValue :=
  match d with
  | .obj dkvs =>
    match (objGet dkvs "samples").getD (.obj []) with
    | .obj skvs =>
      match objGet skvs sn with
      | some (.obj sikvs) =>
        match objGet sikvs (ftKey ft) with
        | some (.arr xs) => xs
        | _ => []
      | _ => []
    | _ => []
  | _ => []

/-- The file list one sample-info value carries for a file type, as read
by the merge (empty when absent or malformed). -/
def siFiles (si : JValue) (ft : FileType) : List JValue :=
  match si with
  | .obj sikvs =>
    match objGet sikvs (ftKey ft) with
    | some (.arr xs) => xs
    | _ => []
  | _ => []

/-- The file list carried by an optional sample-info value. -/
def siFilesOpt (o : Option JValue) (ft : FileType) : List JValue :=
  match o with
  | some si => siFiles si ft
  | none => []

/-- Well-formedness of a sample-info value: a dict whose four file-type
entries, when present, are lists. -/
def wfSampleInfo : JValue → Bool
  | .obj sikvs =>
    [FileType.multiverse, FileType.cnv, FileType.bnd, FileType.region].all
      (fun ft =>
        match objGet sikvs (ftKey ft) with
        | some (.arr _) => true
        | some _ => false
        | none => true)
  | _ => false

/-- Well-formedness of a manifest document for the merge: a dict whose
"samples" entry (when present) is a dict with distinct sample names and
well-formed sample infos. -/
def wfDoc : JValue → Bool
  | .obj dkvs =>
    match (objGet dkvs "samples").getD (.obj []) with
    | .obj skvs =>
      (skvs.map Prod.fst).Nodup && skvs.all (fun kv => wfSampleInfo kv.2)
    | _ => false
  | _ => false

/-! ## VSBatch generation (_generate_vsbatch_content) -/

/-- Which import algorithms the template provides. -/
structure ImportFlags where
  cnv : Bool
  breakend : Bool
  region : Bool
deriving DecidableEq

/-- The resolved table identifiers of the template (string-valued per the
data model; absent when no table was resolved). -/
structure TableIds where
  cnv : Option String
  breakend : Option String
  region : Option String
deriving DecidableEq

/-- Python ",".join / "_".join. -/
def strJoin (sep : String) : List String → String
  | [] => ""
  | [x] => x
  | x :: y :: xs => x ++ sep ++ strJoin sep (y :: xs)

/-- os.path.basename: the part after the last slash. -/
def pyBasename (s : String) : String :=
  String.mk ((s.data.reverse.takeWhile (fun c => c != '/')).reverse)

/-- Python `table_ids.get(k) or "Table1"`: the stored identifier unless it
is falsy - absent (None) or the empty string. -/
def pyOrStr (o : Option String) (dflt : String) : String :=
  match o with
  | some s => if s = "" then dflt else s
  | none => dflt

/-- All files of one type over the sample group, in group order, samples
missing from the merged data contributing nothing. -/
def collectFiles (group : List String) (sampleData : List (String × Files String))
    (ft : FileType) : List String :=
  group.foldl
    (fun acc s =>
      match alookup sampleData s with
      | some fi => acc ++ fi.get ft
      | none => acc) []

/-- Comma-join the files, each in double quotes (no spaces). -/
def quoteJoin (files : List String) : String :=
  strJoin "," (files.map (fun f => "\"" ++ f ++ "\""))

/-- The project name: underscore-joined sorted samples for fewer than six
samples, else first sample followed by _cohort. -/
def projectName (group : List String) : String :=
  if group.length < 6 then strJoin "_" (sortStrings group)
  else (group.headD "") ++ "_cohort"

/-- The project_create command line. -/
def projectCreateCmd (templateFile : String) (group : List String) (overwrite : Bool) :
    String :=
  "project_create \"AppData/Projects/" ++ projectName group ++ "\" template=\"" ++
    pyBasename templateFile ++ "\"" ++ (if overwrite then " overwrite=true" else "")

/-- The multiverse import command line. -/
def importCmd (files : List String) : String :=
  "import files=" ++ quoteJoin files ++ " sample_fields_catalog=SampleCatalog"

/-- The CNV import command line. -/
def cnvImportCmd (files : List String) (tid : String) : String :=
  "update_cnv_import files=" ++ quoteJoin files ++ " table_id=\"" ++ tid ++ "\""

/-- The breakend import command line. -/
def bndImportCmd (files : List String) (tid : String) : String :=
  "update_bnd_import files=" ++ quoteJoin files ++ " table_id=\"" ++ tid ++ "\""

/-- The region import command line. -/
def regionImportCmd (files : List String) (tid : String) : String :=
  "update_region_import files=" ++ quoteJoin files ++ " table_id=\"" ++ tid ++ "\""

/-- _generate_vsbatch_content as the list of emitted command lines (the
Python function newline-joins this list). -/
def generateVsbatchLines (templateFile : String) (group : List String)
    (sampleData : List (String × Files String)) (ia : ImportFlags) (tids : TableIds)
    (overwrite : Bool) : List String :=
  [projectCreateCmd templateFile group overwrite, "download_required_sources"]
  ++ (if collectFiles group sampleData .multiverse ≠ [] then
        [importCmd (collectFiles group sampleData .multiverse), "task_wait"]
      else [])
  ++ (if ia.cnv = true ∧ collectFiles group sampleData .cnv ≠ [] then
        [cnvImportCmd (collectFiles group sampleData .cnv) (pyOrStr tids.cnv "Table1"),
         "task_wait"]
      else [])
  ++ (if ia.breakend = true ∧ collectFiles group sampleData .bnd ≠ [] then
        [bndImportCmd (collectFiles group sampleData .bnd) (pyOrStr tids.breakend "Table1"),
         "task_wait"]
      else [])
  ++ (if ia.region = true ∧ collectFiles group sampleData .region ≠ [] then
        [regionImportCmd (collectFiles group sampleData .region)
           (pyOrStr tids.region "Table1"),
         "task_wait"]
      else [])
  ++ ["get_task_list", "project_save", "project_close"]

/-- _generate_vsbatch_content proper: the newline-joined text. -/
def generateVsbatchContent (templateFile : String) (group : List String)
    (sampleData : List (String × Files String)) (ia : ImportFlags) (tids : TableIds)
    (overwrite : Bool) : String :=
  strJoin "\n" (generateVsbatchLines templateFile group sampleData ia tids overwrite)

/-- A list occurs as a contiguous block of another list. -/
def SeqIn {α : Type} (pat l : List α) : Prop := ∃ a b, l = a ++ pat ++ b

/-! ## Template resolution (_parse_template_file) -/

/-- Dict assignment with JSON-value keys (replace in place or append). -/
def jdictSet : List (JValue × JValue) → JValue → JValue → List (JValue × JValue)
  | [], k, v => [(k, v)]
  | (k0, v0) :: rest, k, v =>
    if k0 = k then (k, v) :: rest else (k0, v0) :: jdictSet rest k v

/-- axis_lookup[uuid] = fields: unhashable keys (lists, dicts) raise. -/
def lookupInsert (lk : List (JValue × JValue)) (k v : JValue) :
    Except Unit (List (JValue × JValue)) :=
  if jHashable k then .ok (jdictSet lk k v) else .error ()

/-- `key in axis_lookup`: unhashable keys raise. -/
def lookupMem (lk : List (JValue × JValue)) (k : JValue) : Except Unit Bool :=
  if jHashable k then .ok (lk.any (fun kv => decide (kv.1 = k))) else .error ()

/-- axis_lookup[key] for a key known to be present. -/
def lookupFind (lk : List (JValue × JValue)) (k : JValue) : JValue :=
  ((lk.find? (fun kv => decide (kv.1 = k))).map Prod.snd).getD .null

/-- The inner loop of _find_axis_uuids over one axisUuids sequence:
axis-option records with a truthy uuid are indexed by that uuid. -/
def processAxisList : List JValue → List (JValue × JValue) →
    Except Unit (List (JValue × JValue))
  | [], lk => .ok lk
  | axis :: rest, lk =>
    match jGet axis "className" .null with
    | .error e => .error e
    | .ok cn =>
      if cn = .str "AxisUuidOptions" then
        match jGet axis "fields" (.obj []) with
        | .error e => .error e
        | .ok fields =>
          match jGet fields "uuid" .null with
          | .error e => .error e
          | .ok uuid =>
            if jTruthy uuid then
              match lookupInsert lk uuid fields with
              | .error e => .error e
              | .ok lk2 => processAxisList rest lk2
            else processAxisList rest lk
      else processAxisList rest lk

mutual

/-- _find_axis_uuids: at a dict, first handle its axisUuids entry (if
any), then recurse into every value in order; at a list recurse into the
items; scalars contribute nothing. -/
def findAxisUuids : JValue → List (JValue × JValue) →
    Except Unit (List (JValue × JValue))
  | .obj kvs, lk =>
    match
      ((match objGet kvs "axisUuids" with
        | some v =>
          match pyIter v with
          | .error e => .error e
          | .ok items => processAxisList items lk
        | none => .ok lk) : Except Unit (List (JValue × JValue))) with
    | .error e => .error e
    | .ok lk1 => faKvs kvs lk1
  | .arr xs, lk => faList xs lk
  | _, lk => .ok lk

/-- _find_axis_uuids over the items of a sequence. -/
def faList : List JValue → List (JValue × JValue) → Except Unit (List (JValue × JValue))
  | [], lk => .ok lk
  | x :: xs, lk =>
    match findAxisUuids x lk with
    | .error e => .error e
    | .ok lk1 => faList xs lk1

/-- _find_axis_uuids over the values of a dict, in entry order. -/
def faKvs : List (String × JValue) → List (JValue × JValue) →
    Except Unit (List (JValue × JValue))
  | [], lk => .ok lk
  | (_, v) :: rest, lk =>
    match findAxisUuids v lk with
    | .error e => .error e
    | .ok lk1 => faKvs rest lk1

end

mutual

/-- _find_table_data_options: collect every dict whose className is
VSTableDataOptions (the dict itself first, then its values), in
traversal order. -/
def findTableOptions : JValue → List JValue
  | .obj kvs =>
    (if objGet kvs "className" = some (.str "VSTableDataOptions") then
      [JValue.obj kvs] else []) ++ ftoKvs kvs
  | .arr xs => ftoList xs
  | _ => []

/-- _find_table_data_options over sequence items. -/
def ftoList : List JValue → List JValue
  | [] => []
  | x :: xs => findTableOptions x ++ ftoList xs

/-- _find_table_data_options over dict values. -/
def ftoKvs : List (String × JValue) → List JValue
  | [] => []
  | (_, v) :: rest => findTableOptions v ++ ftoKvs rest

end

/-- Candidate userIds per axis type, in collection order. -/
structure MatchingTables where
  cnv : List JValue
  breakend : List JValue
  region : List JValue

/-- The axis-uuid loop of one table option: look each referenced uuid up
and append the table's userId to the lists whose axis type matches. -/
def axisLoop (lk : List (JValue × JValue)) (userId : JValue) :
    List JValue → MatchingTables → Except Unit MatchingTables
  | [], mt => .ok mt
  | au :: rest, mt =>
    match lookupMem lk au with
    | .error e => .error e
    | .ok false => axisLoop lk userId rest mt
    | .ok true =>
      match jGet (lookupFind lk au) "axisType" (.str "") with
      | .error e => .error e
      | .ok aty =>
        if aty = .str "CNV" then
          axisLoop lk userId rest { mt with cnv := mt.cnv ++ [userId] }
        else if aty = .str "Breakend" then
          axisLoop lk userId rest { mt with breakend := mt.breakend ++ [userId] }
        else if aty = .str "Region" then
          axisLoop lk userId rest { mt with region := mt.region ++ [userId] }
        else axisLoop lk userId rest mt

/-- Process one VSTableDataOptions record. -/
def processTableOption (lk : List (JValue × JValue)) (mt : MatchingTables)
    (topt : JValue) : Except Unit MatchingTables :=
  match jGet topt "fields" (.obj []) with
  | .error e => .error e
  | .ok fields =>
    match jGet fields "userId" (.str "") with
    | .error e => .error e
    | .ok userId =>
      match jGet fields "axisUuidList" (.arr []) with
      | .error e => .error e
      | .ok auv =>
        match pyIter auv with
        | .error e => .error e
        | .ok items => axisLoop lk userId items mt

/-- The loop over all collected table options. -/
def tableOptionsLoop (lk : List (JValue × JValue)) :
    List JValue → MatchingTables → Except Unit MatchingTables
  | [], mt => .ok mt
  | topt :: rest, mt =>
    match processTableOption lk mt topt with
    | .error e => .error e
    | .ok mt2 => tableOptionsLoop lk rest mt2

/-- Generic-name test of the code: startswith("Table") and the string with
every occurrence of "Table" removed is a nonempty digit string. -/
def isGenericTableName (c : String) : Bool :=
  pyStartsWith c "Table" && pyIsdigit (pyReplace c "Table" "")

/-- Order-preserving deduplication with a Python set of seen values:
unhashable candidates raise. -/
def dedupPyGo : List JValue → List JValue → Except Unit (List JValue)
  | [], acc => .ok acc
  | c :: rest, acc =>
    if jHashable c then
      if c ∈ acc then dedupPyGo rest acc else dedupPyGo rest (acc ++ [c])
    else .error ()

/-- Order-preserving deduplication of the candidate list. -/
def dedupPy (cands : List JValue) : Except Unit (List JValue) := dedupPyGo cands []

/-- The per-category selection of _parse_template_file: zero candidates
keep the identifier absent; one candidate is taken as is; several are
partitioned by isGenericTableName and the alphabetically first custom
(else generic) name wins.  String methods on a non-string candidate
raise. -/
def selectCandidate (cands : List JValue) : Except Unit (Option JValue) :=
  if cands.isEmpty then .ok none
  else
    match dedupPy cands with
    | .error e => .error e
    | .ok u =>
      if u.length = 1 then .ok u.head?
      else if 1 < u.length then
        match u.mapM asStr with
        | .error e => .error e
        | .ok us =>
          if us.filter (fun c => !isGenericTableName c) ≠ [] then
            .ok (some (.str ((sortStrings (us.filter (fun c => !isGenericTableName c))).headD "")))
          else if us.filter (fun c => isGenericTableName c) ≠ [] then
            .ok (some (.str ((sortStrings (us.filter (fun c => isGenericTableName c))).headD "")))
          else .ok u.head?
      else .ok none

/-- The navigation project -> fields -> dal -> fields -> dataTrees with
dict defaults at every step, then iteration over the result. -/
def dataTreesOf (v : JValue) : Except Unit (List JValue) :=
  match jGet v "project" (.obj []) with
  | .error e => .error e
  | .ok project =>
    match jGet project "fields" (.obj []) with
    | .error e => .error e
    | .ok fields =>
      match jGet fields "dal" (.obj []) with
      | .error e => .error e
      | .ok dal =>
        match jGet dal "fields" (.obj []) with
        | .error e => .error e
        | .ok dalFields =>
          match jGet dalFields "dataTrees" (.arr []) with
          | .error e => .error e
          | .ok dts => pyIter dts

/-- The inner algorithms loop of one data tree: collect the algName
strings (string methods on a non-string raise). -/
def algsLoop : List JValue → List String → Except Unit (List String)
  | [], acc => .ok acc
  | alg :: rest, acc =>
    match jGet alg "fields" (.obj []) with
    | .error e => .error e
    | .ok algFields =>
      match jGet algFields "algName" (.str "") with
      | .error e => .error e
      | .ok nameV =>
        match asStr nameV with
        | .error e => .error e
        | .ok n => algsLoop rest (acc ++ [n])

/-- The loop over the data trees, collecting every algorithm name. -/
def treesLoop : List JValue → List String → Except Unit (List String)
  | [], acc => .ok acc
  | dt :: rest, acc =>
    match jGet dt "fields" (.obj []) with
    | .error e => .error e
    | .ok treeFields =>
      match jGet treeFields "algorithms" (.arr []) with
      | .error e => .error e
      | .ok algsV =>
        match pyIter algsV with
        | .error e => .error e
        | .ok algs =>
          match algsLoop algs acc with
          | .error e => .error e
          | .ok acc2 => treesLoop rest acc2

/-- All algorithm names reached through the dataTrees path. -/
def algorithmNames (dts : List JValue) : Except Unit (List String) := treesLoop dts []

/-- One algorithm name's effect on the import flags: names containing
"import" set exactly one flag, tested in the order cnv, then
breakend/bnd, then region (the code's elif chain). -/
def importStep (f : ImportFlags) (n : String) : ImportFlags :=
  if strIn "import" (pyLower n) then
    if strIn "cnv" (pyLower n) then { f with cnv := true }
    else if strIn "breakend" (pyLower n) || strIn "bnd" (pyLower n) then
      { f with breakend := true }
    else if strIn "region" (pyLower n) then { f with region := true }
    else f
  else f

/-- The import-algorithm flags computed from the algorithm names. -/
def importFlagsOfNames (names : List String) : ImportFlags :=
  names.foldl importStep ⟨false, false, false⟩

/-- The result of template resolution. -/
structure TemplateResult where
  importAlgorithms : ImportFlags
  cnvTableId : Option JValue
  bndTableId : Option JValue
  regionTableId : Option JValue
deriving DecidableEq

instance {α : Type} [DecidableEq α] : DecidableEq (Except Unit α) := fun a b =>
  match a, b with
  | .ok x, .ok y =>
    if h : x = y then isTrue (by rw [h]) else isFalse (fun e => h (by cases e; rfl))
  | .error _, .error _ => isTrue (by rfl)
  | .ok _, .error _ => isFalse (fun h => Except.noConfusion h)
  | .error _, .ok _ => isFalse (fun h => Except.noConfusion h)

/-- The all-false / all-absent result of the except branch. -/
def degradedResult : TemplateResult := ⟨⟨false, false, false⟩, none, none, none⟩

/-- The body of _parse_template_file (everything inside the try). -/
def parseTemplateBody (v : JValue) : Except Unit TemplateResult :=
  match findAxisUuids v [] with
  | .error e => .error e
  | .ok lk =>
    match tableOptionsLoop lk (findTableOptions v) ⟨[], [], []⟩ with
    | .error e => .error e
    | .ok mt =>
      match selectCandidate mt.cnv with
      | .error e => .error e
      | .ok cnvId =>
        match selectCandidate mt.breakend with
        | .error e => .error e
        | .ok bndId =>
          match selectCandidate mt.region with
          | .error e => .error e
          | .ok regId =>
            match dataTreesOf v with
            | .error e => .error e
            | .ok dts =>
              match algorithmNames dts with
              | .error e => .error e
              | .ok names => .ok ⟨importFlagsOfNames names, cnvId, bndId, regId⟩

/-- _parse_template_file: any raised error degrades to the all-false /
all-absent result instead of propagating. -/
def parseTemplateFile (v : JValue) : TemplateResult :=
  match parseTemplateBody v with
  | .ok r => r
  | .error _ => degradedResult

/-- Modelled from the spec: the generic-name pattern of the specification,
the literal "Table" followed by (one or more) digits. -/
def specIsGenericTableName (c : String) : Bool :=
  pyStartsWith c "Table" && pyIsdigit (String.mk (c.data.drop 5))

/-- Modelled from the spec: the selection the specification prescribes
among more than one deduplicated candidate - the lexicographically
smallest custom name if any, else the lexicographically smallest generic
name, with "custom" read against the spec's Table-then-digits pattern. -/
def specSelectTableId (u : List String) : Option String :=
  if u.filter (fun c => !specIsGenericTableName c) ≠ [] then
    some ((sortStrings (u.filter (fun c => !specIsGenericTableName c))).headD "")
  else if u.filter (fun c => specIsGenericTableName c) ≠ [] then
    some ((sortStrings (u.filter (fun c => specIsGenericTableName c))).headD "")
  else none

/-- Example template: one CNV axis and three CNV tables named Table1,
Table2 and MyCustomTable. -/
def tmplDocCustom : JValue :=
  .obj [
    ("axisUuids", .arr [ .obj [("className", .str "AxisUuidOptions"),
      ("fields", .obj [("uuid", .str "u1"), ("axisType", .str "CNV")])]]),
    ("tables", .arr [
      .obj [("className", .str "VSTableDataOptions"),
        ("fields", .obj [("userId", .str "Table1"), ("axisUuidList", .arr [.str "u1"])])],
      .obj [("className", .str "VSTableDataOptions"),
        ("fields", .obj [("userId", .str "Table2"), ("axisUuidList", .arr [.str "u1"])])],
      .obj [("className", .str "VSTableDataOptions"),
        ("fields", .obj [("userId", .str "MyCustomTable"),
          ("axisUuidList", .arr [.str "u1"])])]])]

/-- Example template: one CNV axis and two CNV tables named Table2 and
Table1 in that order. -/
def tmplDocGeneric : JValue :=
  .obj [
    ("axisUuids", .arr [ .obj [("className", .str "AxisUuidOptions"),
      ("fields", .obj [("uuid", .str "u1"), ("axisType", .str "CNV")])]]),
    ("tables", .arr [
      .obj [("className", .str "VSTableDataOptions"),
        ("fields", .obj [("userId", .str "Table2"), ("axisUuidList", .arr [.str "u1"])])],
      .obj [("className", .str "VSTableDataOptions"),
        ("fields", .obj [("userId", .str "Table1"),
          ("axisUuidList", .arr [.str "u1"])])]])]

/-- Example template: one CNV axis and two CNV tables named Table1Table1
and Zed; the two generic-name predicates disagree on Table1Table1. -/
def tmplDocMixed : JValue :=
  .obj [
    ("axisUuids", .arr [ .obj [("className", .str "AxisUuidOptions"),
      ("fields", .obj [("uuid", .str "u1"), ("axisType", .str "CNV")])]]),
    ("tables", .arr [
      .obj [("className", .str "VSTableDataOptions"),
        ("fields", .obj [("userId", .str "Table1Table1"),
          ("axisUuidList", .arr [.str "u1"])])],
      .obj [("className", .str "VSTableDataOptions"),
        ("fields", .obj [("userId", .str "Zed"),
          ("axisUuidList", .arr [.str "u1"])])]])]

/-- Example template: a single algorithm along the dataTrees path whose
name contains "import", "cnv" and "region" at once. -/
def tmplDocCnvRegion : JValue :=
  .obj [("project", .obj [("fields", .obj [("dal", .obj [("fields",
    .obj [("dataTrees", .arr [ .obj [("fields", .obj [("algorithms", .arr [
      .obj [("fields", .obj [("algName", .str "import_cnv_region")])]])])]])])])])])]

/-! ## Group resolver (_find_connected_samples, find_sample_relationships) -/

/-- Python set.add: append if absent (insertion-order set semantics). -/
def setAdd (l : List String) (s : String) : List String :=
  if s ∈ l then l else l ++ [s]

/-- One discovery scan of the BFS: walk `l` in order and, for each element
whose extracted sample name (if any) is neither in the processed set `p`
nor already discovered during this scan (`acc`), append it.  This captures
that Python adds every discovered sample to `processed_samples` at the
moment of discovery, so later iterations of the same scan see it. -/
def sift {α : Type} (f : α → Option String) : List α → List String → List String → List String
  | [], _, acc => acc
  | a :: as, p, acc =>
    match f a with
    | none => sift f as p acc
    | some s => if s ∈ p ∨ s ∈ acc then sift f as p acc else sift f as p (acc ++ [s])

/-- The samples newly discovered while processing `c` (lines 418-433):
first every unprocessed table entry whose metadata mentions `c`, in table
order, then every unprocessed known sample mentioned in the metadata of
`c`; the second scan sees the additions of the first as processed. -/
def bfsStep (sd : SData) (allS : List String) (c : String) (processed : List String) :
    List String :=
  sift (fun kv => if c ∈ kv.2 then some kv.1 else none) sd processed [] ++
  sift (fun mv => if mv ∈ allS then some mv else none) ((alookup sd c).getD [])
    (processed ++ sift (fun kv => if c ∈ kv.2 then some kv.1 else none) sd processed []) []

/-- The while loop of _find_connected_samples: pop the queue head, discover
its neighbours, and add them to the group, the processed set and the queue.
Every discovered sample is fresh for `processed` and the discoveries of one
step are mutually distinct (sift checks both), so the Python set additions
are plain appends here.  The loop is structural on a fuel argument;
`findConnectedSamples` supplies fuel that provably cannot run out, so the
fuel-exhausted branch is unreachable (see bfsLoop_spec). -/
def bfsLoop (sd : SData) (allS : List String) :
    Nat → List String → List String → List String → List String × List String
  | _, [], group, processed => (group, processed)
  | 0, _ :: _, group, processed => (group, processed)
  | fuel + 1, c :: rest, group, processed =>
    bfsLoop sd allS fuel (rest ++ bfsStep sd allS c processed)
      (group ++ bfsStep sd allS c processed) (processed ++ bfsStep sd allS c processed)

/-- The number of universe samples (Sample Set plus table keys) not yet
processed; each BFS step consumes one for every sample it discovers. -/
def freshCount (sd : SData) (allS : List String) (p : List String) : Nat :=
  ((allS ++ sd.map Prod.fst).filter (fun x => decide (x ∉ p))).length

/-- _find_connected_samples: the connected group of `sample` together with
the updated processed set (the Python function mutates it in place). -/
def findConnectedSamples (sample : String) (sd : SData) (allS : List String)
    (processed : List String) : List String × List String :=
  bfsLoop sd allS ((allS ++ sd.map Prod.fst).length + 1) [sample] [sample]
    (setAdd processed sample)

/-- Python min() over a group given as a nonempty list (an empty list gives
""; min() on an empty collection raises, and every group here is nonempty). -/
def minOfGroup : List String → String
  | [] => ""
  | h :: t => pyMinFrom h t

/-- The non-cohort loop of find_sample_relationships (lines 489-495): visit
the Sample Set in insertion order and, for each sample not yet processed,
build its connected group, keyed by the group minimum, members sorted. -/
def relationshipsLoop (sd : SData) (allS : List String) :
    List String → List (String × List String) → List String → List (String × List String)
  | [], rels, _ => rels
  | s :: rest, rels, processed =>
    if s ∈ processed then relationshipsLoop sd allS rest rels processed
    else
      relationshipsLoop sd allS rest
        (dictSet rels (minOfGroup (findConnectedSamples s sd allS processed).1)
          (sortStrings (findConnectedSamples s sd allS processed).1))
        (findConnectedSamples s sd allS processed).2

/-- find_sample_relationships without cohort mode on a whole table: the
relationships dict as built (the output stage then sorts its keys). -/
def findRelationships (rows : List (List String)) :
    Option (List (String × List String)) :=
  (parseSampleFile rows).map (fun x => relationshipsLoop x.1 x.2 x.2 [] [])

/-! ## Theorems -/

theorem abs_sub_pyRound_le (q : ℚ) : |q - (pyRound q : ℚ)| ≤ 1/2 := by
  have h0 : (⌊q⌋ : ℚ) ≤ q := Int.floor_le q
  have h1 : q < ⌊q⌋ + 1 := Int.lt_floor_add_one q
  unfold pyRound
  split_ifs with hlt hgt hev
  · rw [abs_of_nonneg (by linarith)]
    linarith
  · push_cast
    rw [abs_of_nonpos (by linarith)]
    linarith
  · rw [abs_of_nonneg (by linarith)]
    linarith
  · push_cast
    rw [abs_of_nonpos (by linarith)]
    linarith

theorem pyRound_nearest (q : ℚ) (m : ℤ) : |q - (pyRound q : ℚ)| ≤ |q - (m : ℚ)| := by
  by_cases h : m = pyRound q
  · subst h
    exact le_refl _
  · have hne : pyRound q - m ≠ 0 := sub_ne_zero.mpr (Ne.symm h)
    have h1 : (1 : ℤ) ≤ |pyRound q - m| := Int.one_le_abs hne
    have h1q : (1 : ℚ) ≤ |(pyRound q : ℚ) - (m : ℚ)| := by
      exact_mod_cast h1
    have h2 := abs_sub_pyRound_le q
    have tri : |(pyRound q : ℚ) - (m : ℚ)| ≤ |(pyRound q : ℚ) - q| + |q - (m : ℚ)| :=
      abs_sub_le _ _ _
    have hcomm : |q - (pyRound q : ℚ)| = |(pyRound q : ℚ) - q| := abs_sub_comm _ _
    rw [abs_sub_comm] at h2
    linarith

/-- C6: for every numeric copy-number value v in a CNV file row, the
classification appended to that row is obtained by rounding v to a nearest
integer n (pyRound, Python round semantics; for every integer m the chosen
n satisfies |v - n| <= |v - m|) and mapping n=2 to "Normal", n=0 to
"Deletion", n=1 to "Het Deletion", n>=3 to "Duplicate" and any other
(negative) n to "?"; in particular 1.6 yields "Normal", -1 yields "?" and
3.0 yields "Duplicate". -/
theorem C6_cnv_classification :
    (∀ v : ℚ,
      (∀ m : ℤ, |v - (pyRound v : ℚ)| ≤ |v - (m : ℚ)|) ∧
      (∀ fields : List String, cnvUpdateRow fields v = fields ++ [cnvStateOf v]) ∧
      cnvStateOf v =
        (if pyRound v = 2 then "Normal"
         else if pyRound v = 0 then "Deletion"
         else if pyRound v = 1 then "Het Deletion"
         else if 3 ≤ pyRound v then "Duplicate"
         else "?") ∧
      (cnvStateOf v = "?" → pyRound v < 0)) ∧
    cnvStateOf (16/10) = "Normal" ∧ cnvStateOf (-1) = "?" ∧ cnvStateOf 3 = "Duplicate" := by
  have hfloor : (⌊(16/10 : ℚ)⌋ : ℤ) = 1 := by
    rw [Int.floor_eq_iff] <;> norm_num
  refine ⟨fun v => ⟨fun m => pyRound_nearest v m, fun fields => rfl, rfl, ?_⟩, ?_, ?_, ?_⟩
  · intro hq
    unfold cnvStateOf at hq
    split_ifs at hq with h1 h2 h3 h4
    · exact absurd hq (by decide)
    · exact absurd hq (by decide)
    · exact absurd hq (by decide)
    · exact absurd hq (by decide)
    · omega
  · unfold cnvStateOf pyRound
    rw [hfloor]
    norm_num
  · unfold cnvStateOf pyRound
    have hm : (⌊(-1 : ℚ)⌋ : ℤ) = -1 := by
      rw [Int.floor_eq_iff] <;> norm_num
    rw [hm]
    norm_num
  · unfold cnvStateOf pyRound
    have h3 : (⌊(3 : ℚ)⌋ : ℤ) = 3 := by
      rw [Int.floor_eq_iff] <;> norm_num
    rw [h3]
    norm_num

theorem alookup_dictSet_self {α : Type} (d : List (String × α)) (k : String) (v : α) :
    alookup (dictSet d k v) k = some v := by
  induction d with
  | nil => simp [dictSet, alookup]
  | cons kv rest ih =>
    obtain ⟨k0, v0⟩ := kv
    by_cases h : k0 = k
    · subst h
      simp [dictSet, alookup]
    · simp [dictSet, alookup, h, ih]

theorem alookup_dictSet_ne {α : Type} (d : List (String × α)) (k k2 : String) (v : α)
    (h : k ≠ k2) : alookup (dictSet d k v) k2 = alookup d k2 := by
  induction d with
  | nil => simp [dictSet, alookup, h]
  | cons kv rest ih =>
    obtain ⟨k0, v0⟩ := kv
    by_cases h0 : k0 = k
    · subst h0
      simp [dictSet, alookup, h]
    · simp [dictSet, alookup, h0, ih]

theorem Files.get_set_self {α : Type} (f : Files α) (ft : FileType) (l : List α) :
    (f.set ft l).get ft = l := by
  cases ft <;> rfl

theorem storedList_update (doc : ManifestDoc) (s : String) (ft : FileType) (p : String) :
    storedList (updateVspipelineJson doc s ft p) s ft =
      (if p ∈ storedList doc s ft then storedList doc s ft
       else storedList doc s ft ++ [p]) := by
  unfold storedList updateVspipelineJson
  rw [alookup_dictSet_self]
  simp [Files.get_set_self]

theorem storedList_update_mono (doc : ManifestDoc) (s : String) (ft : FileType) (p q : String)
    (h : q ∈ storedList doc s ft) :
    q ∈ storedList (updateVspipelineJson doc s ft p) s ft := by
  rw [storedList_update]
  split <;> simp [h]

theorem storedList_update_nodup (doc : ManifestDoc) (s : String) (ft : FileType) (p : String)
    (h : (storedList doc s ft).Nodup) :
    (storedList (updateVspipelineJson doc s ft p) s ft).Nodup := by
  rw [storedList_update]
  split_ifs with hmem
  · exact h
  · simpa [List.nodup_append] using ⟨h, hmem⟩

theorem storedList_update_subset (doc : ManifestDoc) (s : String) (ft : FileType) (p q : String)
    (h : q ∈ storedList (updateVspipelineJson doc s ft p) s ft) :
    q = p ∨ q ∈ storedList doc s ft := by
  rw [storedList_update] at h
  by_cases hmem : p ∈ storedList doc s ft
  · simp [hmem] at h
    exact Or.inr h
  · simp [hmem] at h
    rcases h with h | h
    · exact Or.inr h
    · exact Or.inl h

theorem storedList_foldl_mono (ps : List String) (doc : ManifestDoc) (s : String)
    (ft : FileType) (q : String) (h : q ∈ storedList doc s ft) :
    q ∈ storedList (ps.foldl (fun d r => updateVspipelineJson d s ft r) doc) s ft := by
  induction ps generalizing doc with
  | nil => exact h
  | cons p ps ih =>
    exact ih _ (storedList_update_mono doc s ft p q h)

theorem storedList_foldl_nodup (ps : List String) (doc : ManifestDoc) (s : String)
    (ft : FileType) (h : (storedList doc s ft).Nodup) :
    (storedList (ps.foldl (fun d r => updateVspipelineJson d s ft r) doc) s ft).Nodup := by
  induction ps generalizing doc with
  | nil => exact h
  | cons p ps ih =>
    exact ih _ (storedList_update_nodup doc s ft p h)

theorem storedList_foldl_subset (ps : List String) (doc : ManifestDoc) (s : String)
    (ft : FileType) (q : String)
    (h : q ∈ storedList (ps.foldl (fun d r => updateVspipelineJson d s ft r) doc) s ft) :
    q ∈ ps ∨ q ∈ storedList doc s ft := by
  induction ps generalizing doc with
  | nil => exact Or.inr h
  | cons p ps ih =>
    rcases ih _ h with hin | hin
    · exact Or.inl (List.mem_cons_of_mem _ hin)
    · rcases storedList_update_subset doc s ft p q hin with rfl | hin2
      · exact Or.inl (List.mem_cons_self _ _)
      · exact Or.inr hin2

theorem storedList_foldl_mem (ps : List String) (doc : ManifestDoc) (s : String)
    (ft : FileType) (q : String) (h : q ∈ ps) :
    q ∈ storedList (ps.foldl (fun d r => updateVspipelineJson d s ft r) doc) s ft := by
  induction ps generalizing doc with
  | nil => exact absurd h (List.not_mem_nil q)
  | cons p ps ih =>
    rw [List.foldl_cons]
    rcases List.mem_cons.mp h with rfl | hq
    · apply storedList_foldl_mono
      rw [storedList_update]
      split_ifs with hm
      · exact hm
      · simp
    · exact ih _ hq

/-- C8: for every manifest document state and a single sequential writer,
appending an already-present path leaves the stored (sample, file-type)
list unchanged, and a sequence of appends of pairwise-distinct paths
yields a stored list containing each appended path exactly once, with
none lost. -/
theorem C8_append_safety (doc : ManifestDoc) (s : String) (ft : FileType) (p : String)
    (ps : List String) (hps : ps.Nodup) (hdoc : (storedList doc s ft).Nodup) :
    (p ∈ storedList doc s ft →
      storedList (updateVspipelineJson doc s ft p) s ft = storedList doc s ft) ∧
    (storedList (ps.foldl (fun d r => updateVspipelineJson d s ft r) doc) s ft).Nodup ∧
    (∀ q ∈ ps,
      (storedList (ps.foldl (fun d r => updateVspipelineJson d s ft r) doc) s ft).count q = 1) ∧
    (∀ q ∈ storedList (ps.foldl (fun d r => updateVspipelineJson d s ft r) doc) s ft,
      q ∈ ps ∨ q ∈ storedList doc s ft) := by
  refine ⟨fun hmem => ?_, storedList_foldl_nodup ps doc s ft hdoc, fun q hq => ?_, ?_⟩
  · rw [storedList_update]
    simp [hmem]
  · exact List.count_eq_one_of_mem (storedList_foldl_nodup ps doc s ft hdoc)
      (storedList_foldl_mem ps doc s ft q hq)
  · exact fun q hq => storedList_foldl_subset ps doc s ft q hq

/-- Witness for C8 at a concrete document and append sequence. -/
theorem C8_append_safety_witness :
    (storedList
        (updateVspipelineJson [("S1", ⟨[], ["x"], [], []⟩)] "S1" FileType.cnv "x") "S1"
        FileType.cnv
      = storedList [("S1", ⟨[], ["x"], [], []⟩)] "S1" FileType.cnv) ∧
    (storedList
        (["a", "b"].foldl (fun d r => updateVspipelineJson d "S1" FileType.cnv r)
          [("S1", ⟨[], ["x"], [], []⟩)]) "S1" FileType.cnv).Nodup :=
  have h := C8_append_safety [("S1", ⟨[], ["x"], [], []⟩)] "S1" FileType.cnv "x" ["a", "b"]
    (by decide) (by decide)
  ⟨h.1 (by decide), h.2.1⟩

/-- C10: when the same sample name heads several data rows, the parsed
sample data keeps exactly the metadata of the last such row, and the name
occurs exactly once in the returned Sample Set. -/
theorem C10_duplicate_rows (rows : List (List String)) (n : String) :
    alookup (parseSampleRows rows).1 n =
      ((rows.filterMap parseRow).filter (fun pr => decide (pr.1 = n))).getLast?.map Prod.snd ∧
    (parseSampleRows rows).2.count n =
      (if (rows.filterMap parseRow).filter (fun pr => decide (pr.1 = n)) = [] then 0 else 1) := by
  induction rows using List.reverseRecOn with
  | nil => simp [parseSampleRows, alookup]
  | append_singleton rows row ih =>
    obtain ⟨ih1, ih2⟩ := ih
    have hstep : parseSampleRows (rows ++ [row]) = parseStep (parseSampleRows rows) row := by
      unfold parseSampleRows
      rw [List.foldl_append, List.foldl_cons, List.foldl_nil]
    rw [hstep]
    rw [List.filterMap_append]
    cases hrow : parseRow row with
    | none =>
      have hemp : List.filterMap parseRow [row] = [] := by simp [hrow]
      rw [hemp, List.append_nil]
      simp [parseStep, hrow, ih1, ih2]
    | some pr =>
      obtain ⟨m, meta⟩ := pr
      by_cases hmn : m = n
      · subst hmn
        rw [List.filter_append]
        have hfl : (List.filterMap parseRow [row]).filter (fun pr => decide (pr.1 = m)) =
            [(m, meta)] := by
          simp [hrow]
        rw [hfl]
        constructor
        · rw [List.getLast?_append_of_ne_nil _ (by simp)]
          simp [parseStep, hrow, alookup_dictSet_self]
        · simp only [parseStep, hrow]
          rw [if_neg (by simp : ¬((List.filter (fun pr => decide (pr.1 = m))
            (List.filterMap parseRow rows)) ++ [(m, meta)] = []))]
          by_cases hm : m ∈ (parseSampleRows rows).2
          · rw [if_pos hm]
            rcases em ((rows.filterMap parseRow).filter
                (fun pr => decide (pr.1 = m)) = []) with hF | hF
            · exfalso
              have hpos : 0 < (parseSampleRows rows).2.count m :=
                List.count_pos_iff.mpr hm
              rw [ih2, if_pos hF] at hpos
              omega
            · rw [ih2, if_neg hF]
          · rw [if_neg hm, List.count_append, List.count_eq_zero.mpr hm,
              List.count_singleton']
            simp
      · rw [List.filter_append]
        have hfl : (List.filterMap parseRow [row]).filter (fun pr => decide (pr.1 = n)) =
            [] := by
          simp [hrow, hmn]
        rw [hfl, List.append_nil]
        constructor
        · simp only [parseStep, hrow]
          rw [alookup_dictSet_ne _ _ _ _ hmn]
          exact ih1
        · simp only [parseStep, hrow]
          by_cases hm : m ∈ (parseSampleRows rows).2
          · rw [if_pos hm]
            exact ih2
          · rw [if_neg hm, List.count_append, List.count_singleton',
              if_neg hmn, ih2]
            simp

/-- C2 counterexample: on a metadata table consisting of only a header row
the Sample Set is empty, and cohort mode emits no group at all - not the
single all-sample group the claim requires for every input table. -/
theorem C2_cohort_counterexample :
    findRelationshipsCohort [["name", "father"]] = some [] := by
  rfl

/-- C2 amended: with cohort mode enabled the output is exactly one group
named "cohort" holding all samples (sorted) whenever the Sample Set is
nonempty; for a table whose Sample Set is empty the output has no groups. -/
theorem C2_cohort_amended (header : List String) (body : List (List String)) :
    ((parseSampleRows body).2 = [] →
      findRelationshipsCohort (header :: body) = some []) ∧
    ((parseSampleRows body).2 ≠ [] →
      findRelationshipsCohort (header :: body) =
          some [("cohort", sortStrings (parseSampleRows body).2)] ∧
        (sortStrings (parseSampleRows body).2).Perm (parseSampleRows body).2) := by
  constructor
  · intro h
    simp [findRelationshipsCohort, parseSampleFile, cohortRelationships, h]
  · intro h
    refine ⟨?_, List.perm_insertionSort _ _⟩
    simp [findRelationshipsCohort, parseSampleFile, cohortRelationships, h]

/-- Witness for C2 amended at a one-sample table. -/
theorem C2_cohort_amended_witness :
    findRelationshipsCohort [["name"], ["S1"]] =
        some [("cohort", sortStrings (parseSampleRows [["S1"]]).2)] ∧
      (sortStrings (parseSampleRows [["S1"]]).2).Perm (parseSampleRows [["S1"]]).2 :=
  (C2_cohort_amended ["name"] [["S1"]]).2 (by decide)

theorem Files.get_set_ne {α : Type} (f : Files α) (ft ft2 : FileType) (l : List α)
    (h : ft ≠ ft2) : (f.set ft l).get ft2 = f.get ft2 := by
  cases ft <;> cases ft2 <;> first | rfl | exact absurd rfl h

theorem mergedList_dictSet_self (m : MergedData) (sn : String) (f : Files JValue)
    (ft : FileType) : mergedList (dictSet m sn f) sn ft = f.get ft := by
  unfold mergedList
  rw [alookup_dictSet_self]
  rfl

theorem mergedList_dictSet_ne (m : MergedData) (sn sn2 : String) (f : Files JValue)
    (ft : FileType) (h : sn ≠ sn2) :
    mergedList (dictSet m sn f) sn2 ft = mergedList m sn2 ft := by
  unfold mergedList
  rw [alookup_dictSet_ne _ _ _ _ h]

theorem alookup_append {α : Type} (l1 l2 : List (String × α)) (k : String) :
    alookup (l1 ++ l2) k = ((alookup l1 k).map some).getD (alookup l2 k) := by
  induction l1 with
  | nil => simp [alookup]
  | cons kv rest ih =>
    obtain ⟨k0, v0⟩ := kv
    by_cases h : k0 = k
    · simp [alookup, h]
    · simp [alookup, h, ih]

theorem wfSampleInfo_spec (si : JValue) (hwf : wfSampleInfo si = true) (ft : FileType) :
    ∃ sikvs, si = .obj sikvs ∧
      (objGet sikvs (ftKey ft) = none ∨
       ∃ xs, objGet sikvs (ftKey ft) = some (.arr xs)) := by
  cases si with
  | obj sikvs =>
    refine ⟨sikvs, rfl, ?_⟩
    have hall := hwf
    unfold wfSampleInfo at hall
    rw [List.all_eq_true] at hall
    have hft : ft ∈ [FileType.multiverse, FileType.cnv, FileType.bnd, FileType.region] := by
      cases ft <;> simp
    have := hall ft hft
    cases hg : objGet sikvs (ftKey ft) with
    | none => exact Or.inl rfl
    | some v =>
      cases v with
      | arr xs => exact Or.inr ⟨xs, rfl⟩
      | null => rw [hg] at this; simp at this
      | bool b => rw [hg] at this; simp at this
      | num n => rw [hg] at this; simp at this
      | str s => rw [hg] at this; simp at this
      | obj kvs => rw [hg] at this; simp at this
  | null => exact absurd hwf (by simp [wfSampleInfo])
  | bool b => exact absurd hwf (by simp [wfSampleInfo])
  | num n => exact absurd hwf (by simp [wfSampleInfo])
  | str s => exact absurd hwf (by simp [wfSampleInfo])
  | arr xs => exact absurd hwf (by simp [wfSampleInfo])

theorem mergeOneType_ok (m : MergedData) (sn : String) (si : JValue) (ft : FileType)
    (hwf : wfSampleInfo si = true) :
    mergeOneType m sn si ft =
      .ok (dictSet m sn
        (((alookup m sn).getD emptyFiles).set ft
          (addFiles (mergedList m sn ft) (siFiles si ft)))) := by
  obtain ⟨sikvs, rfl, hcase⟩ := wfSampleInfo_spec si hwf ft
  rcases hcase with hnone | ⟨xs, hsome⟩
  · simp [mergeOneType, jGet, pyIter, siFiles, hnone, addFiles]
  · simp [mergeOneType, jGet, pyIter, siFiles, hsome]

theorem mergeOneType_mergedList (m : MergedData) (sn : String) (si : JValue)
    (ft : FileType) (hwf : wfSampleInfo si = true) :
    ∃ m2, mergeOneType m sn si ft = .ok m2 ∧
      mergedList m2 sn ft = addFiles (mergedList m sn ft) (siFiles si ft) ∧
      (∀ ft2, ft2 ≠ ft → mergedList m2 sn ft2 = mergedList m sn ft2) ∧
      (∀ sn2, sn2 ≠ sn → ∀ ft2, mergedList m2 sn2 ft2 = mergedList m sn2 ft2) := by
  refine ⟨_, mergeOneType_ok m sn si ft hwf, ?_, ?_, ?_⟩
  · rw [mergedList_dictSet_self, Files.get_set_self]
  · intro ft2 hne
    rw [mergedList_dictSet_self, Files.get_set_ne _ _ _ _ (Ne.symm hne)]
    rfl
  · intro sn2 hne ft2
    rw [mergedList_dictSet_ne _ _ _ _ _ (Ne.symm hne)]

theorem mergedList_ensure (m : MergedData) (sn : String) (ft : FileType) :
    mergedList (if (alookup m sn).isSome then m else m ++ [(sn, emptyFiles)]) sn ft =
      mergedList m sn ft := by
  cases hl : alookup m sn with
  | some f => simp [hl]
  | none =>
    simp only [hl, Option.isSome_none, Bool.false_eq_true, if_false]
    unfold mergedList
    rw [alookup_append, hl]
    simp [alookup]

theorem mergedList_ensure_ne (m : MergedData) (sn sn2 : String) (ft : FileType)
    (h : sn2 ≠ sn) :
    mergedList (if (alookup m sn).isSome then m else m ++ [(sn, emptyFiles)]) sn2 ft =
      mergedList m sn2 ft := by
  cases hl : alookup m sn with
  | some f => simp [hl]
  | none =>
    simp only [hl, Option.isSome_none, Bool.false_eq_true, if_false]
    unfold mergedList
    rw [alookup_append]
    have : alookup [(sn, (emptyFiles : Files JValue))] sn2 = none := by
      simp [alookup, Ne.symm h]
    rw [this]
    cases alookup m sn2 <;> simp

theorem mergeSampleInfo_ok (m : MergedData) (sn : String) (si : JValue)
    (hwf : wfSampleInfo si = true) :
    ∃ mf, mergeSampleInfo m sn si = .ok mf ∧
      (∀ ft, mergedList mf sn ft = addFiles (mergedList m sn ft) (siFiles si ft)) ∧
      (∀ sn2, sn2 ≠ sn → ∀ ft, mergedList mf sn2 ft = mergedList m sn2 ft) := by
  obtain ⟨m2, h2, h2a, h2b, h2c⟩ :=
    mergeOneType_mergedList (if (alookup m sn).isSome then m else m ++ [(sn, emptyFiles)])
      sn si .multiverse hwf
  obtain ⟨m3, h3, h3a, h3b, h3c⟩ := mergeOneType_mergedList m2 sn si .cnv hwf
  obtain ⟨m4, h4, h4a, h4b, h4c⟩ := mergeOneType_mergedList m3 sn si .bnd hwf
  obtain ⟨m5, h5, h5a, h5b, h5c⟩ := mergeOneType_mergedList m4 sn si .region hwf
  refine ⟨m5, ?_, ?_, ?_⟩
  · simp [mergeSampleInfo, h2, h3, h4, h5]
  · intro ft
    cases ft
    · rw [h5b _ (by simp), h4b _ (by simp), h3b _ (by simp), h2a, mergedList_ensure]
    · rw [h5b _ (by simp), h4b _ (by simp), h3a, h2b _ (by simp), mergedList_ensure]
    · rw [h5b _ (by simp), h4a, h3b _ (by simp), h2b _ (by simp), mergedList_ensure]
    · rw [h5a, h4b _ (by simp), h3b _ (by simp), h2b _ (by simp), mergedList_ensure]
  · intro sn2 hne ft
    rw [h5c _ hne _, h4c _ hne _, h3c _ hne _, h2c _ hne _, mergedList_ensure_ne _ _ _ _ hne]

theorem objGet_eq_none_of_not_mem (skvs : List (String × JValue)) (k : String)
    (h : k ∉ skvs.map Prod.fst) : objGet skvs k = none := by
  induction skvs with
  | nil => rfl
  | cons kv rest ih =>
    obtain ⟨k0, v0⟩ := kv
    simp only [List.map_cons, List.mem_cons] at h
    push_neg at h
    have h1 : ¬(k0 = k) := fun he => h.1 he.symm
    simp [objGet, h1, ih h.2]

theorem mergeSamples_ok (skvs : List (String × JValue)) (m : MergedData)
    (hwf : ∀ kv ∈ skvs, wfSampleInfo kv.2 = true)
    (hnd : (skvs.map Prod.fst).Nodup) :
    ∃ mf, mergeSamples m skvs = .ok mf ∧
      ∀ sn ft, mergedList mf sn ft =
        addFiles (mergedList m sn ft) (siFilesOpt (objGet skvs sn) ft) := by
  induction skvs generalizing m with
  | nil =>
    refine ⟨m, rfl, fun sn ft => ?_⟩
    simp [objGet, siFilesOpt, addFiles]
  | cons kv rest ih =>
    obtain ⟨k, si⟩ := kv
    obtain ⟨m2, hm2, hm2a, hm2b⟩ :=
      mergeSampleInfo_ok m k si (hwf (k, si) (List.mem_cons_self _ _))
    have hndrest : (rest.map Prod.fst).Nodup := (List.nodup_cons.mp hnd).2
    have hknot : k ∉ rest.map Prod.fst := (List.nodup_cons.mp hnd).1
    obtain ⟨mf, hmf, hmfa⟩ := ih m2 (fun kv hkv => hwf kv (List.mem_cons_of_mem _ hkv)) hndrest
    refine ⟨mf, ?_, ?_⟩
    · simp [mergeSamples, hm2, hmf]
    · intro sn ft
      by_cases hsn : sn = k
      · subst hsn
        rw [hmfa sn ft, objGet_eq_none_of_not_mem rest sn hknot]
        have hog : objGet ((sn, si) :: rest) sn = some si := by simp [objGet]
        rw [hog]
        simp only [siFilesOpt, addFiles, List.foldl_nil]
        rw [hm2a ft]
        rfl
      · have hog : objGet ((k, si) :: rest) sn = objGet rest sn := by
          have h1 : ¬(k = sn) := fun he => hsn he.symm
          simp [objGet, h1]
        rw [hmfa sn ft, hm2b sn hsn ft, hog]

theorem mergeFile_ok (m : MergedData) (d : JValue) (hwf : wfDoc d = true)
    (sn : String) (ft : FileType) :
    mergedList (mergeFile m d) sn ft = addFiles (mergedList m sn ft) (docFiles d sn ft) := by
  cases d with
  | obj dkvs =>
    cases hs : (objGet dkvs "samples").getD (.obj []) with
    | obj skvs =>
      have hwf2 : (skvs.map Prod.fst).Nodup ∧ ∀ kv ∈ skvs, wfSampleInfo kv.2 = true := by
        simp only [wfDoc] at hwf
        rw [hs] at hwf
        simp only [Bool.and_eq_true, decide_eq_true_eq, List.all_eq_true] at hwf
        exact hwf
      obtain ⟨mf, hmf, hmfa⟩ := mergeSamples_ok skvs m hwf2.2 hwf2.1
      have hmm : mergeFile m (.obj dkvs) = mf := by
        simp [mergeFile, jGet, hs, hmf]
      have hdf : docFiles (.obj dkvs) sn ft = siFilesOpt (objGet skvs sn) ft := by
        simp only [docFiles]
        rw [hs]
        cases ho : objGet skvs sn with
        | none => simp [ho, siFilesOpt]
        | some si => cases si <;> simp [ho, siFilesOpt, siFiles]
      rw [hmm, hmfa sn ft, hdf]
    | null => simp only [wfDoc] at hwf; rw [hs] at hwf; simp at hwf
    | bool b => simp only [wfDoc] at hwf; rw [hs] at hwf; simp at hwf
    | num n => simp only [wfDoc] at hwf; rw [hs] at hwf; simp at hwf
    | str s => simp only [wfDoc] at hwf; rw [hs] at hwf; simp at hwf
    | arr xs => simp only [wfDoc] at hwf; rw [hs] at hwf; simp at hwf
  | null => exact absurd hwf (by simp [wfDoc])
  | bool b => exact absurd hwf (by simp [wfDoc])
  | num n => exact absurd hwf (by simp [wfDoc])
  | str s => exact absurd hwf (by simp [wfDoc])
  | arr xs => exact absurd hwf (by simp [wfDoc])

theorem merge_foldl (docs : List JValue) (m : MergedData)
    (hwf : ∀ d ∈ docs, wfDoc d = true) (sn : String) (ft : FileType) :
    mergedList (docs.foldl mergeFile m) sn ft =
      docs.foldl (fun acc d => addFiles acc (docFiles d sn ft)) (mergedList m sn ft) := by
  induction docs generalizing m with
  | nil => rfl
  | cons d ds ih =>
    rw [List.foldl_cons, List.foldl_cons,
      ih _ (fun x hx => hwf x (List.mem_cons_of_mem _ hx)),
      mergeFile_ok m d (hwf d (List.mem_cons_self _ _)) sn ft]

theorem addFiles_append (cur l1 l2 : List JValue) :
    addFiles cur (l1 ++ l2) = addFiles (addFiles cur l1) l2 := by
  unfold addFiles
  rw [List.foldl_append]

theorem foldl_addFiles (lists : List (List JValue)) (cur : List JValue) :
    lists.foldl addFiles cur = addFiles cur lists.flatten := by
  induction lists generalizing cur with
  | nil => simp [addFiles]
  | cons l ls ih =>
    rw [List.foldl_cons, ih, List.flatten_cons, addFiles_append]

theorem addFiles_mem (l cur : List JValue) (q : JValue) :
    q ∈ addFiles cur l ↔ q ∈ cur ∨ q ∈ l := by
  induction l generalizing cur with
  | nil => simp [addFiles]
  | cons x xs ih =>
    have hstep : addFiles cur (x :: xs) =
        addFiles (if x ∈ cur then cur else cur ++ [x]) xs := by
      unfold addFiles
      rw [List.foldl_cons]
    rw [hstep, ih]
    by_cases hx : x ∈ cur
    · simp only [hx, if_true, List.mem_cons]
      constructor
      · rintro (h | h)
        · exact Or.inl h
        · exact Or.inr (Or.inr h)
      · rintro (h | rfl | h)
        · exact Or.inl h
        · exact Or.inl hx
        · exact Or.inr h
    · simp only [hx, if_false, List.mem_append, List.mem_singleton, List.mem_cons]
      tauto

theorem addFiles_nodup (l cur : List JValue) (h : cur.Nodup) : (addFiles cur l).Nodup := by
  induction l generalizing cur with
  | nil => exact h
  | cons x xs ih =>
    have hstep : addFiles cur (x :: xs) =
        addFiles (if x ∈ cur then cur else cur ++ [x]) xs := by
      unfold addFiles
      rw [List.foldl_cons]
    rw [hstep]
    by_cases hx : x ∈ cur
    · rw [if_pos hx]
      exact ih _ h
    · rw [if_neg hx]
      exact ih _ (by simpa [List.nodup_append] using ⟨h, hx⟩)

/-- C7: merging manifest documents produces, for each (sample, file type),
the first-occurrence deduplication of the concatenation of the documents'
lists taken in the supplied order: every path present in some input occurs
exactly once, a path present from an earlier document is never re-added. -/
theorem C7_manifest_merge (docs : List JValue) (hwf : ∀ d ∈ docs, wfDoc d = true)
    (sn : String) (ft : FileType) :
    mergedList (mergeVspipelineJsonFiles docs) sn ft =
      dedupFirst ((docs.map (fun d => docFiles d sn ft)).flatten) ∧
    (mergedList (mergeVspipelineJsonFiles docs) sn ft).Nodup ∧
    (∀ q, q ∈ mergedList (mergeVspipelineJsonFiles docs) sn ft ↔
      ∃ d ∈ docs, q ∈ docFiles d sn ft) ∧
    (∀ q ∈ (docs.map (fun d => docFiles d sn ft)).flatten,
      (mergedList (mergeVspipelineJsonFiles docs) sn ft).count q = 1) := by
  have hbase : mergedList ([] : MergedData) sn ft = [] := by cases ft <;> rfl
  have hmain : mergedList (mergeVspipelineJsonFiles docs) sn ft =
      dedupFirst ((docs.map (fun d => docFiles d sn ft)).flatten) := by
    unfold mergeVspipelineJsonFiles dedupFirst
    rw [merge_foldl docs [] hwf sn ft, hbase]
    rw [← List.foldl_map (fun d => docFiles d sn ft) (fun acc l => addFiles acc l) docs []]
    exact foldl_addFiles _ _
  have hnd : (mergedList (mergeVspipelineJsonFiles docs) sn ft).Nodup := by
    rw [hmain]
    exact addFiles_nodup _ _ List.nodup_nil
  refine ⟨hmain, hnd, fun q => ?_, fun q hq => ?_⟩
  · rw [hmain]
    unfold dedupFirst
    rw [addFiles_mem]
    simp [List.mem_flatten]
  · apply List.count_eq_one_of_mem hnd
    rw [hmain]
    unfold dedupFirst
    rw [addFiles_mem]
    exact Or.inr hq

/-- Witness for C7: the specification example, two documents both holding
"/a/x.vcf" under (sample "S1", type cnv); the merged list holds it once. -/
theorem C7_manifest_merge_witness :
    (mergedList
      (mergeVspipelineJsonFiles
        [ .obj [("samples", .obj [("S1", .obj [("cnv", .arr [.str "/a/x.vcf"])])])],
          .obj [("samples",
            .obj [("S1", .obj [("cnv", .arr [.str "/a/x.vcf", .str "/b/y.vcf"])])])]])
      "S1" FileType.cnv).count (.str "/a/x.vcf") = 1 :=
  (C7_manifest_merge
    [ .obj [("samples", .obj [("S1", .obj [("cnv", .arr [.str "/a/x.vcf"])])])],
      .obj [("samples",
        .obj [("S1", .obj [("cnv", .arr [.str "/a/x.vcf", .str "/b/y.vcf"])])])]]
    (by decide) "S1" FileType.cnv).2.2.2 (.str "/a/x.vcf") (by decide)

theorem strNe_of_take (a b : String) (n : Nat) (h : a.data.take n ≠ b.data.take n) :
    a ≠ b := fun e => h (by rw [e])

theorem strApp_ne (p x q y : String) (n : Nat) (hn1 : n ≤ p.data.length)
    (hn2 : n ≤ q.data.length) (h : p.data.take n ≠ q.data.take n) : p ++ x ≠ q ++ y := by
  intro e
  apply h
  have h1 : p.data.take n = (p ++ x).data.take n := by
    rw [String.data_append, List.take_append_of_le_length hn1]
  have h2 : q.data.take n = (q ++ y).data.take n := by
    rw [String.data_append, List.take_append_of_le_length hn2]
  rw [h1, h2, e]

theorem strApp_ne_right (p x q : String) (n : Nat) (hn : n ≤ p.data.length)
    (h : p.data.take n ≠ q.data.take n) : p ++ x ≠ q := by
  intro e
  apply h
  have h1 : p.data.take n = (p ++ x).data.take n := by
    rw [String.data_append, List.take_append_of_le_length hn]
  rw [h1, e]

theorem cnvImportCmd_app (f : List String) (t : String) :
    cnvImportCmd f t =
      "update_cnv_import files=" ++ (quoteJoin f ++ (" table_id=\"" ++ (t ++ "\""))) := by
  simp [cnvImportCmd, String.append_assoc]

theorem bndImportCmd_app (f : List String) (t : String) :
    bndImportCmd f t =
      "update_bnd_import files=" ++ (quoteJoin f ++ (" table_id=\"" ++ (t ++ "\""))) := by
  simp [bndImportCmd, String.append_assoc]

theorem regionImportCmd_app (f : List String) (t : String) :
    regionImportCmd f t =
      "update_region_import files=" ++ (quoteJoin f ++ (" table_id=\"" ++ (t ++ "\""))) := by
  simp [regionImportCmd, String.append_assoc]

theorem importCmd_app (f : List String) :
    importCmd f = "import files=" ++ (quoteJoin f ++ " sample_fields_catalog=SampleCatalog") := by
  simp [importCmd, String.append_assoc]

theorem projectCreateCmd_app (tf : String) (g : List String) (ow : Bool) :
    projectCreateCmd tf g ow =
      "project_create \"AppData/Projects/" ++
        (projectName g ++ ("\" template=\"" ++ (pyBasename tf ++ ("\"" ++
          (if ow then " overwrite=true" else ""))))) := by
  simp [projectCreateCmd, String.append_assoc]

theorem cnvCmd_ne_projectCreate (f : List String) (t tf : String) (g : List String)
    (ow : Bool) : cnvImportCmd f t ≠ projectCreateCmd tf g ow := by
  rw [cnvImportCmd_app, projectCreateCmd_app]
  exact strApp_ne _ _ _ _ 1 (by decide) (by decide) (by decide)

theorem bndCmd_ne_projectCreate (f : List String) (t tf : String) (g : List String)
    (ow : Bool) : bndImportCmd f t ≠ projectCreateCmd tf g ow := by
  rw [bndImportCmd_app, projectCreateCmd_app]
  exact strApp_ne _ _ _ _ 1 (by decide) (by decide) (by decide)

theorem regionCmd_ne_projectCreate (f : List String) (t tf : String) (g : List String)
    (ow : Bool) : regionImportCmd f t ≠ projectCreateCmd tf g ow := by
  rw [regionImportCmd_app, projectCreateCmd_app]
  exact strApp_ne _ _ _ _ 1 (by decide) (by decide) (by decide)

theorem cnvCmd_ne_importCmd (f : List String) (t : String) (f2 : List String) :
    cnvImportCmd f t ≠ importCmd f2 := by
  rw [cnvImportCmd_app, importCmd_app]
  exact strApp_ne _ _ _ _ 1 (by decide) (by decide) (by decide)

theorem bndCmd_ne_importCmd (f : List String) (t : String) (f2 : List String) :
    bndImportCmd f t ≠ importCmd f2 := by
  rw [bndImportCmd_app, importCmd_app]
  exact strApp_ne _ _ _ _ 1 (by decide) (by decide) (by decide)

theorem regionCmd_ne_importCmd (f : List String) (t : String) (f2 : List String) :
    regionImportCmd f t ≠ importCmd f2 := by
  rw [regionImportCmd_app, importCmd_app]
  exact strApp_ne _ _ _ _ 1 (by decide) (by decide) (by decide)

theorem cnvCmd_ne_bndCmd (f : List String) (t : String) (f2 : List String) (t2 : String) :
    cnvImportCmd f t ≠ bndImportCmd f2 t2 := by
  rw [cnvImportCmd_app, bndImportCmd_app]
  exact strApp_ne _ _ _ _ 8 (by decide) (by decide) (by decide)

theorem cnvCmd_ne_regionCmd (f : List String) (t : String) (f2 : List String)
    (t2 : String) : cnvImportCmd f t ≠ regionImportCmd f2 t2 := by
  rw [cnvImportCmd_app, regionImportCmd_app]
  exact strApp_ne _ _ _ _ 8 (by decide) (by decide) (by decide)

theorem bndCmd_ne_regionCmd (f : List String) (t : String) (f2 : List String)
    (t2 : String) : bndImportCmd f t ≠ regionImportCmd f2 t2 := by
  rw [bndImportCmd_app, regionImportCmd_app]
  exact strApp_ne _ _ _ _ 8 (by decide) (by decide) (by decide)

theorem cnvCmd_ne_lit (f : List String) (t q : String)
    (h : ("update_cnv_import files=" : String).data.take 1 ≠ q.data.take 1) :
    cnvImportCmd f t ≠ q := by
  rw [cnvImportCmd_app]
  exact strApp_ne_right _ _ _ 1 (by decide) h

theorem bndCmd_ne_lit (f : List String) (t q : String)
    (h : ("update_bnd_import files=" : String).data.take 1 ≠ q.data.take 1) :
    bndImportCmd f t ≠ q := by
  rw [bndImportCmd_app]
  exact strApp_ne_right _ _ _ 1 (by decide) h

theorem regionCmd_ne_lit (f : List String) (t q : String)
    (h : ("update_region_import files=" : String).data.take 1 ≠ q.data.take 1) :
    regionImportCmd f t ≠ q := by
  rw [regionImportCmd_app]
  exact strApp_ne_right _ _ _ 1 (by decide) h

theorem mem_generateVsbatchLines (l : String) (tf : String) (g : List String)
    (sd : List (String × Files String)) (ia : ImportFlags) (tids : TableIds) (ow : Bool)
    (h : l ∈ generateVsbatchLines tf g sd ia tids ow) :
    l = projectCreateCmd tf g ow ∨ l = "download_required_sources" ∨ l = "task_wait" ∨
    l = "get_task_list" ∨ l = "project_save" ∨ l = "project_close" ∨
    l = importCmd (collectFiles g sd .multiverse) ∨
    (l = cnvImportCmd (collectFiles g sd .cnv) (pyOrStr tids.cnv "Table1") ∧
      ia.cnv = true ∧ collectFiles g sd .cnv ≠ []) ∨
    (l = bndImportCmd (collectFiles g sd .bnd) (pyOrStr tids.breakend "Table1") ∧
      ia.breakend = true ∧ collectFiles g sd .bnd ≠ []) ∨
    (l = regionImportCmd (collectFiles g sd .region) (pyOrStr tids.region "Table1") ∧
      ia.region = true ∧ collectFiles g sd .region ≠ []) := by
  unfold generateVsbatchLines at h
  rw [List.mem_append, List.mem_append, List.mem_append, List.mem_append,
    List.mem_append] at h
  rcases h with ((((hh | hh) | hh) | hh) | hh) | hh
  · simp only [List.mem_cons, List.mem_singleton, List.not_mem_nil, or_false] at hh
    tauto
  · by_cases h1 : collectFiles g sd FileType.multiverse ≠ []
    · rw [if_pos h1] at hh
      simp only [List.mem_cons, List.not_mem_nil, or_false] at hh
      tauto
    · rw [if_neg h1] at hh
      simp at hh
  · by_cases h2 : ia.cnv = true ∧ collectFiles g sd FileType.cnv ≠ []
    · rw [if_pos h2] at hh
      simp only [List.mem_cons, List.not_mem_nil, or_false] at hh
      tauto
    · rw [if_neg h2] at hh
      simp at hh
  · by_cases h3 : ia.breakend = true ∧ collectFiles g sd FileType.bnd ≠ []
    · rw [if_pos h3] at hh
      simp only [List.mem_cons, List.not_mem_nil, or_false] at hh
      tauto
    · rw [if_neg h3] at hh
      simp at hh
  · by_cases h4 : ia.region = true ∧ collectFiles g sd FileType.region ≠ []
    · rw [if_pos h4] at hh
      simp only [List.mem_cons, List.not_mem_nil, or_false] at hh
      tauto
    · rw [if_neg h4] at hh
      simp at hh
  · simp only [List.mem_cons, List.mem_singleton, List.not_mem_nil, or_false] at hh
    tauto

theorem SeqIn_head_mem {α : Type} (x : α) (xs l : List α) (h : SeqIn (x :: xs) l) :
    x ∈ l := by
  obtain ⟨a, b, rfl⟩ := h
  simp

/-- C5 counterexample: for a group with one cnv file, the cnv flag set and
a *resolved but empty* cnv table identifier (tids.cnv = some ""), the
emitted import command falls back to the default "Table1" even though an
identifier was resolved (not absent) - the claim's "exactly when no
identifier was resolved (absent)" fails. -/
theorem C5_counterexample :
    generateVsbatchLines "template.vsproject-template" ["S1"]
        [("S1", ⟨[], ["f.cns"], [], []⟩)] ⟨true, false, false⟩ ⟨some "", none, none⟩ true =
      [ "project_create \"AppData/Projects/S1\" template=\"template.vsproject-template\" overwrite=true",
        "download_required_sources",
        "update_cnv_import files=\"f.cns\" table_id=\"Table1\"",
        "task_wait",
        "get_task_list", "project_save", "project_close" ] ∧
    (⟨some "", none, none⟩ : TableIds).cnv ≠ none := by
  constructor
  · decide
  · simp

/-- C5 amended: the generated line list contains the cnv (resp. breakend,
region) import command followed by the task_wait synchronization marker if
and only if the matching algorithm flag is set and the group has files of
that type; the command carries all files of the type comma-joined and
individually quoted and the resolved table identifier, falling back to
"Table1" exactly when the identifier is absent or the empty string
(Python falsy), per pyOrStr. -/
theorem C5_generator_amended (tf : String) (g : List String)
    (sd : List (String × Files String)) (ia : ImportFlags) (tids : TableIds) (ow : Bool) :
    (SeqIn [cnvImportCmd (collectFiles g sd .cnv) (pyOrStr tids.cnv "Table1"), "task_wait"]
        (generateVsbatchLines tf g sd ia tids ow) ↔
      ia.cnv = true ∧ collectFiles g sd .cnv ≠ []) ∧
    (SeqIn [bndImportCmd (collectFiles g sd .bnd) (pyOrStr tids.breakend "Table1"),
        "task_wait"] (generateVsbatchLines tf g sd ia tids ow) ↔
      ia.breakend = true ∧ collectFiles g sd .bnd ≠ []) ∧
    (SeqIn [regionImportCmd (collectFiles g sd .region) (pyOrStr tids.region "Table1"),
        "task_wait"] (generateVsbatchLines tf g sd ia tids ow) ↔
      ia.region = true ∧ collectFiles g sd .region ≠ []) := by
  refine ⟨⟨?_, ?_⟩, ⟨?_, ?_⟩, ⟨?_, ?_⟩⟩
  · intro hseq
    have hmem := SeqIn_head_mem _ _ _ hseq
    rcases mem_generateVsbatchLines _ tf g sd ia tids ow hmem with
      h | h | h | h | h | h | h | h | h | h
    · exact absurd h (cnvCmd_ne_projectCreate _ _ _ _ _)
    · exact absurd h (cnvCmd_ne_lit _ _ _ (by decide))
    · exact absurd h (cnvCmd_ne_lit _ _ _ (by decide))
    · exact absurd h (cnvCmd_ne_lit _ _ _ (by decide))
    · exact absurd h (cnvCmd_ne_lit _ _ _ (by decide))
    · exact absurd h (cnvCmd_ne_lit _ _ _ (by decide))
    · exact absurd h (cnvCmd_ne_importCmd _ _ _)
    · exact h.2
    · exact absurd h.1 (cnvCmd_ne_bndCmd _ _ _ _)
    · exact absurd h.1 (cnvCmd_ne_regionCmd _ _ _ _)
  · intro hc
    refine ⟨[projectCreateCmd tf g ow, "download_required_sources"] ++
        (if collectFiles g sd .multiverse ≠ [] then
          [importCmd (collectFiles g sd .multiverse), "task_wait"] else []),
      (if ia.breakend = true ∧ collectFiles g sd .bnd ≠ [] then
          [bndImportCmd (collectFiles g sd .bnd) (pyOrStr tids.breakend "Table1"),
           "task_wait"] else []) ++
        ((if ia.region = true ∧ collectFiles g sd .region ≠ [] then
            [regionImportCmd (collectFiles g sd .region) (pyOrStr tids.region "Table1"),
             "task_wait"] else []) ++
          ["get_task_list", "project_save", "project_close"]), ?_⟩
    simp [generateVsbatchLines, if_pos hc, List.append_assoc]
  · intro hseq
    have hmem := SeqIn_head_mem _ _ _ hseq
    rcases mem_generateVsbatchLines _ tf g sd ia tids ow hmem with
      h | h | h | h | h | h | h | h | h | h
    · exact absurd h (bndCmd_ne_projectCreate _ _ _ _ _)
    · exact absurd h (bndCmd_ne_lit _ _ _ (by decide))
    · exact absurd h (bndCmd_ne_lit _ _ _ (by decide))
    · exact absurd h (bndCmd_ne_lit _ _ _ (by decide))
    · exact absurd h (bndCmd_ne_lit _ _ _ (by decide))
    · exact absurd h (bndCmd_ne_lit _ _ _ (by decide))
    · exact absurd h (bndCmd_ne_importCmd _ _ _)
    · exact absurd h.1.symm (cnvCmd_ne_bndCmd _ _ _ _)
    · exact h.2
    · exact absurd h.1 (bndCmd_ne_regionCmd _ _ _ _)
  · intro hc
    refine ⟨([projectCreateCmd tf g ow, "download_required_sources"] ++
        (if collectFiles g sd .multiverse ≠ [] then
          [importCmd (collectFiles g sd .multiverse), "task_wait"] else [])) ++
        (if ia.cnv = true ∧ collectFiles g sd .cnv ≠ [] then
          [cnvImportCmd (collectFiles g sd .cnv) (pyOrStr tids.cnv "Table1"),
           "task_wait"] else []),
      (if ia.region = true ∧ collectFiles g sd .region ≠ [] then
          [regionImportCmd (collectFiles g sd .region) (pyOrStr tids.region "Table1"),
           "task_wait"] else []) ++
        ["get_task_list", "project_save", "project_close"], ?_⟩
    simp [generateVsbatchLines, if_pos hc, List.append_assoc]
  · intro hseq
    have hmem := SeqIn_head_mem _ _ _ hseq
    rcases mem_generateVsbatchLines _ tf g sd ia tids ow hmem with
      h | h | h | h | h | h | h | h | h | h
    · exact absurd h (regionCmd_ne_projectCreate _ _ _ _ _)
    · exact absurd h (regionCmd_ne_lit _ _ _ (by decide))
    · exact absurd h (regionCmd_ne_lit _ _ _ (by decide))
    · exact absurd h (regionCmd_ne_lit _ _ _ (by decide))
    · exact absurd h (regionCmd_ne_lit _ _ _ (by decide))
    · exact absurd h (regionCmd_ne_lit _ _ _ (by decide))
    · exact absurd h (regionCmd_ne_importCmd _ _ _)
    · exact absurd h.1.symm (cnvCmd_ne_regionCmd _ _ _ _)
    · exact absurd h.1.symm (bndCmd_ne_regionCmd _ _ _ _)
    · exact h.2
  · intro hc
    refine ⟨(([projectCreateCmd tf g ow, "download_required_sources"] ++
        (if collectFiles g sd .multiverse ≠ [] then
          [importCmd (collectFiles g sd .multiverse), "task_wait"] else [])) ++
        (if ia.cnv = true ∧ collectFiles g sd .cnv ≠ [] then
          [cnvImportCmd (collectFiles g sd .cnv) (pyOrStr tids.cnv "Table1"),
           "task_wait"] else [])) ++
        (if ia.breakend = true ∧ collectFiles g sd .bnd ≠ [] then
          [bndImportCmd (collectFiles g sd .bnd) (pyOrStr tids.breakend "Table1"),
           "task_wait"] else []),
      ["get_task_list", "project_save", "project_close"], ?_⟩
    simp [generateVsbatchLines, if_pos hc, List.append_assoc]

/-- Witness for C5 amended: with the cnv flag set, one cnv file and a
resolved identifier "MyTable", the cnv import command and its task_wait
marker appear in the generated lines. -/
theorem C5_generator_amended_witness :
    SeqIn
      [cnvImportCmd (collectFiles ["S1"] [("S1", ⟨[], ["f.cns"], [], []⟩)] .cnv)
        (pyOrStr (some "MyTable") "Table1"), "task_wait"]
      (generateVsbatchLines "t.vsproject-template" ["S1"]
        [("S1", ⟨[], ["f.cns"], [], []⟩)] ⟨true, false, false⟩
        ⟨some "MyTable", none, none⟩ true) :=
  (C5_generator_amended "t.vsproject-template" ["S1"]
    [("S1", ⟨[], ["f.cns"], [], []⟩)] ⟨true, false, false⟩
    ⟨some "MyTable", none, none⟩ true).1.mpr (by decide)

/-- C9: template resolution never propagates an error - a failing body
degrades to the all-false / all-absent result - and when the
project/dal/dataTrees path is absent (the navigation yields no data
trees) the availability flags keep their false defaults. -/
theorem C9_degraded_resolution (v : JValue) :
    (parseTemplateBody v = .error () → parseTemplateFile v = degradedResult) ∧
    (∀ r, parseTemplateBody v = .ok r → dataTreesOf v = .ok [] →
      r.importAlgorithms = ⟨false, false, false⟩) := by
  constructor
  · intro h
    unfold parseTemplateFile
    rw [h]
  · intro r hok hdts
    unfold parseTemplateBody at hok
    cases h1 : findAxisUuids v [] with
    | error e => simp only [h1] at hok; exact Except.noConfusion hok
    | ok lk =>
      simp only [h1] at hok
      cases h2 : tableOptionsLoop lk (findTableOptions v) ⟨[], [], []⟩ with
      | error e => simp only [h2] at hok; exact Except.noConfusion hok
      | ok mt =>
        simp only [h2] at hok
        cases h3 : selectCandidate mt.cnv with
        | error e => simp only [h3] at hok; exact Except.noConfusion hok
        | ok cnvId =>
          simp only [h3] at hok
          cases h4 : selectCandidate mt.breakend with
          | error e => simp only [h4] at hok; exact Except.noConfusion hok
          | ok bndId =>
            simp only [h4] at hok
            cases h5 : selectCandidate mt.region with
            | error e => simp only [h5] at hok; exact Except.noConfusion hok
            | ok regId =>
              have hnames : algorithmNames [] = .ok [] := rfl
              simp only [h5, hdts, hnames] at hok
              cases hok
              rfl

/-- Witness for C9: a top-level JSON array fails the body (lists have no
attribute get) and degrades; an empty JSON object resolves with no data
trees and all-false flags. -/
theorem C9_degraded_resolution_witness :
    parseTemplateFile (.arr [.str "x"]) = degradedResult ∧
    degradedResult.importAlgorithms = ⟨false, false, false⟩ :=
  ⟨(C9_degraded_resolution (.arr [.str "x"])).1 (by rfl),
   (C9_degraded_resolution (.obj [])).2 degradedResult (by rfl) (by rfl)⟩

/-- C4 counterexample: the algorithm name "import_cnv_region" contains
"import" and "region" (case-insensitively), so the claim requires the
region-available flag to be set, yet resolution leaves it false: the
code's elif chain lets the cnv test shadow the region test. -/
theorem C4_counterexample :
    (parseTemplateFile tmplDocCnvRegion).importAlgorithms = ⟨true, false, false⟩ ∧
    strIn "import" (pyLower "import_cnv_region") = true ∧
    strIn "region" (pyLower "import_cnv_region") = true ∧
    (parseTemplateFile tmplDocCnvRegion).importAlgorithms.region = false := by
  refine ⟨by decide, by decide, by decide, by decide⟩

theorem foldl_importStep_cnv (names : List String) (f : ImportFlags) :
    (names.foldl importStep f).cnv =
      (f.cnv ||
        names.any (fun n => strIn "import" (pyLower n) && strIn "cnv" (pyLower n))) := by
  induction names generalizing f with
  | nil => simp
  | cons n ns ih =>
    rw [List.foldl_cons, ih, List.any_cons]
    have hstep : (importStep f n).cnv =
        (f.cnv || (strIn "import" (pyLower n) && strIn "cnv" (pyLower n))) := by
      unfold importStep
      split_ifs with ha hb hc hd <;> simp_all
    rw [hstep, Bool.or_assoc]

theorem foldl_importStep_bnd (names : List String) (f : ImportFlags) :
    (names.foldl importStep f).breakend =
      (f.breakend ||
        names.any (fun n => strIn "import" (pyLower n) &&
          (strIn "breakend" (pyLower n) || strIn "bnd" (pyLower n)) &&
          !strIn "cnv" (pyLower n))) := by
  induction names generalizing f with
  | nil => simp
  | cons n ns ih =>
    rw [List.foldl_cons, ih, List.any_cons]
    have hstep : (importStep f n).breakend =
        (f.breakend || (strIn "import" (pyLower n) &&
          (strIn "breakend" (pyLower n) || strIn "bnd" (pyLower n)) &&
          !strIn "cnv" (pyLower n))) := by
      unfold importStep
      split_ifs with ha hb hc hd <;> simp_all
    rw [hstep, Bool.or_assoc]

theorem foldl_importStep_region (names : List String) (f : ImportFlags) :
    (names.foldl importStep f).region =
      (f.region ||
        names.any (fun n => strIn "import" (pyLower n) &&
          strIn "region" (pyLower n) && !strIn "cnv" (pyLower n) &&
          !strIn "breakend" (pyLower n) && !strIn "bnd" (pyLower n))) := by
  induction names generalizing f with
  | nil => simp
  | cons n ns ih =>
    rw [List.foldl_cons, ih, List.any_cons]
    have hstep : (importStep f n).region =
        (f.region || (strIn "import" (pyLower n) &&
          strIn "region" (pyLower n) && !strIn "cnv" (pyLower n) &&
          !strIn "breakend" (pyLower n) && !strIn "bnd" (pyLower n))) := by
      unfold importStep
      split_ifs with ha hb hc hd
      · simp_all
      · rw [Bool.or_eq_true] at hc
        rcases hc with hc | hc <;> simp_all
      · simp_all [not_or]
      · simp_all [not_or]
      · simp_all
    rw [hstep, Bool.or_assoc]

/-- C4 amended: the flag characterization of the elif chain.  A record
name sets the cnv flag when it contains "import" and "cnv"; it sets the
breakend flag when it contains "import" and ("breakend" or "bnd") but NOT
"cnv"; it sets the region flag when it contains "import" and "region" but
none of "cnv", "breakend", "bnd" - each record sets at most one flag, in
priority order, not each flag independently.  The flags of a successful
resolution are exactly those computed from the algorithm names reached
through the dataTrees path. -/
theorem C4_import_flags_amended :
    (∀ names : List String,
      ((importFlagsOfNames names).cnv = true ↔
        ∃ n ∈ names, strIn "import" (pyLower n) = true ∧
          strIn "cnv" (pyLower n) = true) ∧
      ((importFlagsOfNames names).breakend = true ↔
        ∃ n ∈ names, strIn "import" (pyLower n) = true ∧
          (strIn "breakend" (pyLower n) = true ∨ strIn "bnd" (pyLower n) = true) ∧
          strIn "cnv" (pyLower n) = false) ∧
      ((importFlagsOfNames names).region = true ↔
        ∃ n ∈ names, strIn "import" (pyLower n) = true ∧
          strIn "region" (pyLower n) = true ∧ strIn "cnv" (pyLower n) = false ∧
          strIn "breakend" (pyLower n) = false ∧ strIn "bnd" (pyLower n) = false)) ∧
    (∀ v r, parseTemplateBody v = .ok r →
      ∃ dts names, dataTreesOf v = .ok dts ∧ algorithmNames dts = .ok names ∧
        r.importAlgorithms = importFlagsOfNames names) := by
  constructor
  · intro names
    refine ⟨?_, ?_, ?_⟩
    · rw [show importFlagsOfNames names = names.foldl importStep ⟨false, false, false⟩
        from rfl, foldl_importStep_cnv]
      simp [List.any_eq_true]
    · rw [show importFlagsOfNames names = names.foldl importStep ⟨false, false, false⟩
        from rfl, foldl_importStep_bnd]
      simp [List.any_eq_true, and_assoc]
    · rw [show importFlagsOfNames names = names.foldl importStep ⟨false, false, false⟩
        from rfl, foldl_importStep_region]
      simp [List.any_eq_true, and_assoc]
  · intro v r hok
    unfold parseTemplateBody at hok
    cases h1 : findAxisUuids v [] with
    | error e => simp only [h1] at hok; exact Except.noConfusion hok
    | ok lk =>
      simp only [h1] at hok
      cases h2 : tableOptionsLoop lk (findTableOptions v) ⟨[], [], []⟩ with
      | error e => simp only [h2] at hok; exact Except.noConfusion hok
      | ok mt =>
        simp only [h2] at hok
        cases h3 : selectCandidate mt.cnv with
        | error e => simp only [h3] at hok; exact Except.noConfusion hok
        | ok cnvId =>
          simp only [h3] at hok
          cases h4 : selectCandidate mt.breakend with
          | error e => simp only [h4] at hok; exact Except.noConfusion hok
          | ok bndId =>
            simp only [h4] at hok
            cases h5 : selectCandidate mt.region with
            | error e => simp only [h5] at hok; exact Except.noConfusion hok
            | ok regId =>
              simp only [h5] at hok
              cases h6 : dataTreesOf v with
              | error e => simp only [h6] at hok; exact Except.noConfusion hok
              | ok dts =>
                simp only [h6] at hok
                cases h7 : algorithmNames dts with
                | error e => simp only [h7] at hok; exact Except.noConfusion hok
                | ok names =>
                  simp only [h7] at hok
                  cases hok
                  exact ⟨dts, names, rfl, h7, rfl⟩

/-- Witness for C4 amended: the name "import_cnv" sets the cnv flag, and
resolving the counterexample template succeeds with the flags computed
from its single algorithm name. -/
theorem C4_import_flags_amended_witness :
    (importFlagsOfNames ["import_cnv"]).cnv = true ∧
    (∃ dts names, dataTreesOf tmplDocCnvRegion = .ok dts ∧
      algorithmNames dts = .ok names ∧
      (parseTemplateFile tmplDocCnvRegion).importAlgorithms = importFlagsOfNames names) :=
  ⟨(C4_import_flags_amended.1 ["import_cnv"]).1.mpr
    ⟨"import_cnv", by decide, by decide, by decide⟩,
   by
    obtain ⟨dts, names, hd, hn, hr⟩ :=
      C4_import_flags_amended.2 tmplDocCnvRegion (parseTemplateFile tmplDocCnvRegion)
        (by decide)
    exact ⟨dts, names, hd, hn, hr⟩⟩

theorem lexLe_refl (l : List Char) : lexLe l l = true := by
  induction l with
  | nil => rfl
  | cons c cs ih => simp [lexLe, ih]

theorem lexLe_total (a : List Char) : ∀ b, lexLe a b = true ∨ lexLe b a = true := by
  induction a with
  | nil => intro b; left; rfl
  | cons c cs ih =>
    intro b
    cases b with
    | nil => right; rfl
    | cons d ds =>
      by_cases h1 : c.toNat < d.toNat
      · left; simp [lexLe, h1]
      · by_cases h2 : d.toNat < c.toNat
        · right; simp [lexLe, h2]
        · rcases ih ds with h | h
          · left; simp [lexLe, h1, h2, h]
          · right; simp [lexLe, h1, h2, h]

theorem lexLe_trans (a : List Char) :
    ∀ b c, lexLe a b = true → lexLe b c = true → lexLe a c = true := by
  induction a with
  | nil => intro b c _ _; rfl
  | cons x xs ih =>
    intro b c hab hbc
    cases b with
    | nil => exact absurd hab (by simp [lexLe])
    | cons y ys =>
      cases c with
      | nil => exact absurd hbc (by simp [lexLe])
      | cons z zs =>
        simp only [lexLe] at hab hbc ⊢
        by_cases h1 : x.toNat < y.toNat
        · by_cases h2 : y.toNat < z.toNat
          · simp [show x.toNat < z.toNat by omega]
          · by_cases h3 : z.toNat < y.toNat
            · simp_all
            · have : y.toNat = z.toNat := by omega
              simp [show x.toNat < z.toNat by omega]
        · by_cases h4 : y.toNat < x.toNat
          · simp_all
          · have hxy : x.toNat = y.toNat := by omega
            by_cases h2 : y.toNat < z.toNat
            · simp [show x.toNat < z.toNat by omega]
            · by_cases h3 : z.toNat < y.toNat
              · simp_all
              · have hyz : y.toNat = z.toNat := by omega
                simp_all [show ¬(x.toNat < z.toNat) by omega, show ¬(z.toNat < x.toNat) by omega]
                exact ih ys zs hab hbc

instance : IsTotal String strLe :=
  ⟨fun a b => lexLe_total a.data b.data⟩

instance : IsTrans String strLe :=
  ⟨fun a b c => lexLe_trans a.data b.data c.data⟩

instance : IsRefl String strLe :=
  ⟨fun a => lexLe_refl a.data⟩

theorem sortStrings_head_min (l : List String) (h : l ≠ []) :
    ((sortStrings l).headD "") ∈ l ∧ ∀ x ∈ l, strLe ((sortStrings l).headD "") x := by
  have hperm : (sortStrings l).Perm l := List.perm_insertionSort strLe l
  have hsorted : List.Sorted strLe (sortStrings l) := List.sorted_insertionSort strLe l
  have hne : sortStrings l ≠ [] := by
    intro he
    rw [he] at hperm
    exact h (List.Perm.eq_nil hperm.symm)
  obtain ⟨hd, tl, heq⟩ := List.exists_cons_of_ne_nil hne
  rw [heq]
  simp only [List.headD_cons]
  constructor
  · have hmem : hd ∈ sortStrings l := by
      rw [heq]
      exact List.mem_cons_self _ _
    exact hperm.subset hmem
  · intro x hx
    have hx2 : x ∈ sortStrings l := (hperm.mem_iff).mpr hx
    rw [heq] at hx2
    rcases List.mem_cons.mp hx2 with rfl | hx3
    · exact lexLe_refl _
    · rw [heq] at hsorted
      exact (List.pairwise_cons.mp hsorted).1 x hx3

theorem mapM_loop_asStr (us : List String) :
    ∀ acc, List.mapM.loop asStr (us.map JValue.str) acc = Except.ok (acc.reverse ++ us) := by
  induction us with
  | nil =>
    intro acc
    simp only [List.map_nil, List.append_nil]
    rfl
  | cons u us ih =>
    intro acc
    rw [List.map_cons]
    show (asStr (.str u) >>= fun y => List.mapM.loop asStr (us.map JValue.str) (y :: acc)) =
      Except.ok (acc.reverse ++ u :: us)
    rw [show asStr (.str u) = Except.ok u from rfl]
    show List.mapM.loop asStr (us.map JValue.str) (u :: acc) = Except.ok (acc.reverse ++ u :: us)
    rw [ih (u :: acc)]
    simp

theorem mapM_asStr_map (us : List String) :
    (us.map JValue.str).mapM asStr = Except.ok us := by
  show List.mapM.loop asStr (us.map JValue.str) [] = Except.ok us
  rw [mapM_loop_asStr us []]
  rfl

/-- C3 counterexample: a template whose CNV candidates are Table1Table1
and Zed.  The claim's pattern ("Table" followed by digits) classes
Table1Table1 as custom, making it the mandated winner; the code's test
(replace all "Table" occurrences, then isdigit) classes it as generic and
selects Zed instead. -/
theorem C3_counterexample :
    (parseTemplateFile tmplDocMixed).cnvTableId = some (.str "Zed") ∧
    specSelectTableId ["Table1Table1", "Zed"] = some "Table1Table1" ∧
    (parseTemplateFile tmplDocMixed).cnvTableId ≠
      (specSelectTableId ["Table1Table1", "Zed"]).map JValue.str := by
  refine ⟨by decide, by decide, by decide⟩

/-- C3 amended: with more than one distinct candidate the resolver
partitions by the code's generic test - startswith "Table" and all-digit
after deleting every occurrence of "Table" (so for example Table1Table1
counts as generic) - and selects the lexicographically smallest custom
name if any, else the lexicographically smallest generic name; the
claim's two concrete examples hold. -/
theorem C3_table_selection_amended :
    (∀ (cands : List JValue) (us : List String),
      dedupPy cands = .ok (us.map JValue.str) → 1 < us.length →
      ∃ m, selectCandidate cands = .ok (some (.str m)) ∧
        ((us.filter (fun c => !isGenericTableName c) ≠ [] →
            m ∈ us.filter (fun c => !isGenericTableName c) ∧
            ∀ x ∈ us.filter (fun c => !isGenericTableName c), strLe m x) ∧
         (us.filter (fun c => !isGenericTableName c) = [] →
            m ∈ us.filter (fun c => isGenericTableName c) ∧
            ∀ x ∈ us.filter (fun c => isGenericTableName c), strLe m x))) ∧
    (parseTemplateFile tmplDocCustom).cnvTableId = some (.str "MyCustomTable") ∧
    (parseTemplateFile tmplDocGeneric).cnvTableId = some (.str "Table1") := by
  refine ⟨?_, by decide, by decide⟩
  intro cands us hdedup hlen
  have hcne : cands.isEmpty = false := by
    cases cands with
    | nil =>
      exfalso
      have : (Except.ok [] : Except Unit (List JValue)) = .ok (us.map JValue.str) := hdedup
      have hnil : us.map JValue.str = [] := (Except.ok.inj this).symm
      rw [List.map_eq_nil_iff] at hnil
      rw [hnil] at hlen
      simp at hlen
    | cons c rest => rfl
  have hlen2 : ¬((us.map JValue.str).length = 1) := by
    rw [List.length_map]
    omega
  have hlen3 : 1 < (us.map JValue.str).length := by
    rw [List.length_map]
    exact hlen
  unfold selectCandidate
  simp only [hcne, Bool.false_eq_true, if_false, hdedup, hlen2, hlen3, if_true,
    mapM_asStr_map]
  by_cases hcust : us.filter (fun c => !isGenericTableName c) = []
  · have husne : us ≠ [] := by
      intro he
      rw [he] at hlen
      simp at hlen
    obtain ⟨x, hx⟩ := List.exists_mem_of_ne_nil us husne
    have hxg : isGenericTableName x = true := by
      by_contra hng
      have : x ∈ us.filter (fun c => !isGenericTableName c) := by
        rw [List.mem_filter]
        exact ⟨hx, by simp [hng]⟩
      rw [hcust] at this
      exact List.not_mem_nil x this
    have hgne : us.filter (fun c => isGenericTableName c) ≠ [] := by
      intro he
      have : x ∈ us.filter (fun c => isGenericTableName c) := by
        rw [List.mem_filter]
        exact ⟨hx, hxg⟩
      rw [he] at this
      exact List.not_mem_nil x this
    rw [if_neg (by simp [hcust]), if_pos hgne]
    refine ⟨(sortStrings (us.filter (fun c => isGenericTableName c))).headD "", rfl, ?_, ?_⟩
    · intro hne
      exact absurd hcust hne
    · intro _
      exact sortStrings_head_min _ hgne
  · rw [if_pos hcust]
    refine ⟨(sortStrings (us.filter (fun c => !isGenericTableName c))).headD "", rfl, ?_, ?_⟩
    · intro _
      exact sortStrings_head_min _ hcust
    · intro he
      exact absurd he hcust

/-- Witness for C3 amended at the candidate list Table1, Zed. -/
theorem C3_table_selection_amended_witness :
    ∃ m, selectCandidate [.str "Table1", .str "Zed"] = .ok (some (.str m)) ∧
      ((["Table1", "Zed"].filter (fun c => !isGenericTableName c) ≠ [] →
          m ∈ ["Table1", "Zed"].filter (fun c => !isGenericTableName c) ∧
          ∀ x ∈ ["Table1", "Zed"].filter (fun c => !isGenericTableName c), strLe m x) ∧
       (["Table1", "Zed"].filter (fun c => !isGenericTableName c) = [] →
          m ∈ ["Table1", "Zed"].filter (fun c => isGenericTableName c) ∧
          ∀ x ∈ ["Table1", "Zed"].filter (fun c => isGenericTableName c), strLe m x)) :=
  C3_table_selection_amended.1 [.str "Table1", .str "Zed"] ["Table1", "Zed"]
    (by decide) (by decide)

theorem sift_spec {α : Type} (f : α → Option String) :
    ∀ (l : List α) (p acc : List String), ∃ d,
      sift f l p acc = acc ++ d ∧
      (∀ x ∈ d, x ∉ p ∧ x ∉ acc ∧ ∃ a ∈ l, f a = some x) ∧
      d.Nodup := by
  intro l
  induction l with
  | nil =>
    intro p acc
    exact ⟨[], by simp [sift], by simp, List.nodup_nil⟩
  | cons a as ih =>
    intro p acc
    cases hfa : f a with
    | none =>
      obtain ⟨d, h1, h2, h3⟩ := ih p acc
      refine ⟨d, ?_, ?_, h3⟩
      · simpa [sift, hfa] using h1
      · intro x hx
        obtain ⟨hp, hacc, b, hb, hfb⟩ := h2 x hx
        exact ⟨hp, hacc, b, List.mem_cons_of_mem a hb, hfb⟩
    | some s =>
      by_cases hmem : s ∈ p ∨ s ∈ acc
      · obtain ⟨d, h1, h2, h3⟩ := ih p acc
        refine ⟨d, ?_, ?_, h3⟩
        · simp only [sift, hfa]
          rw [if_pos hmem]
          exact h1
        · intro x hx
          obtain ⟨hp, hacc, b, hb, hfb⟩ := h2 x hx
          exact ⟨hp, hacc, b, List.mem_cons_of_mem a hb, hfb⟩
      · obtain ⟨d, h1, h2, h3⟩ := ih p (acc ++ [s])
        push_neg at hmem
        refine ⟨s :: d, ?_, ?_, ?_⟩
        · simp only [sift, hfa]
          rw [if_neg (by push_neg; exact hmem)]
          rw [h1]
          simp
        · intro x hx
          rcases List.mem_cons.mp hx with rfl | hx'
          · exact ⟨hmem.1, hmem.2, a, List.mem_cons_self a as, hfa⟩
          · obtain ⟨hp, hacc, b, hb, hfb⟩ := h2 x hx'
            refine ⟨hp, fun hc => hacc (List.mem_append_left _ hc),
              b, List.mem_cons_of_mem a hb, hfb⟩
        · rw [List.nodup_cons]
          refine ⟨?_, h3⟩
          intro hc
          exact (h2 s hc).2.1 (List.mem_append_right _ (by simp))

theorem bfsStep_spec (sd : SData) (allS : List String) (c : String) (processed : List String) :
    (bfsStep sd allS c processed).Nodup ∧
    ∀ x ∈ bfsStep sd allS c processed,
      x ∉ processed ∧ x ∈ allS ++ sd.map Prod.fst := by
  obtain ⟨d1, h11, h12, h13⟩ :=
    sift_spec (fun kv : String × List String => if c ∈ kv.2 then some kv.1 else none)
      sd processed []
  simp only [List.nil_append] at h11
  obtain ⟨d2, h21, h22, h23⟩ :=
    sift_spec (fun mv : String => if mv ∈ allS then some mv else none)
      ((alookup sd c).getD [])
      (processed ++ sift (fun kv => if c ∈ kv.2 then some kv.1 else none) sd processed []) []
  simp only [List.nil_append] at h21
  rw [h11] at h21 h22
  have hstep : bfsStep sd allS c processed = d1 ++ d2 := by
    unfold bfsStep
    rw [h11, h21]
  have hd1 : ∀ x ∈ d1, x ∉ processed ∧ x ∈ sd.map Prod.fst := by
    intro x hx
    obtain ⟨hp, _, kv, hkv, hf⟩ := h12 x hx
    refine ⟨hp, ?_⟩
    by_cases hc : c ∈ kv.2
    · rw [if_pos hc] at hf
      exact List.mem_map.mpr ⟨kv, hkv, Option.some.inj hf⟩
    · rw [if_neg hc] at hf
      exact absurd hf (Option.noConfusion)
  have hd2 : ∀ x ∈ d2, x ∉ processed ++ d1 ∧ x ∈ allS := by
    intro x hx
    obtain ⟨hp, _, mv, _, hf⟩ := h22 x hx
    refine ⟨hp, ?_⟩
    by_cases hm : mv ∈ allS
    · rw [if_pos hm] at hf
      rw [← Option.some.inj hf]
      exact hm
    · rw [if_neg hm] at hf
      exact absurd hf (Option.noConfusion)
  rw [hstep]
  constructor
  · rw [List.nodup_append]
    refine ⟨h13, h23, ?_⟩
    intro x hx1 hx2
    exact (hd2 x hx2).1 (List.mem_append_right _ hx1)
  · intro x hx
    rcases List.mem_append.mp hx with h | h
    · exact ⟨(hd1 x h).1, List.mem_append_right _ (hd1 x h).2⟩
    · refine ⟨fun hc => (hd2 x h).1 (List.mem_append_left _ hc),
        List.mem_append_left _ (hd2 x h).2⟩

theorem length_lt_of_sublist_of_mem {α : Type} {l1 l2 : List α} (hs : l1.Sublist l2)
    {x : α} (hx2 : x ∈ l2) (hx1 : x ∉ l1) : l1.length < l2.length := by
  rcases Nat.lt_or_ge l1.length l2.length with h | h
  · exact h
  · have he : l1 = l2 := hs.eq_of_length (le_antisymm hs.length_le h)
    exact absurd (he ▸ hx2) hx1

theorem freshCount_snoc (sd : SData) (allS : List String) (p : List String) (x : String)
    (hu : x ∈ allS ++ sd.map Prod.fst) (hp : x ∉ p) :
    freshCount sd allS (p ++ [x]) < freshCount sd allS p := by
  unfold freshCount
  apply length_lt_of_sublist_of_mem (x := x)
  · apply List.monotone_filter_right
    intro a ha
    simp only [decide_eq_true_eq, List.mem_append, List.mem_singleton] at ha ⊢
    intro hc
    exact ha (Or.inl hc)
  · exact List.mem_filter.mpr ⟨hu, by simpa using hp⟩
  · intro hc
    have := (List.mem_filter.mp hc).2
    simp at this

theorem freshCount_append (sd : SData) (allS : List String) :
    ∀ (news p : List String), news.Nodup →
      (∀ x ∈ news, x ∉ p ∧ x ∈ allS ++ sd.map Prod.fst) →
      freshCount sd allS (p ++ news) + news.length ≤ freshCount sd allS p := by
  intro news
  induction news with
  | nil => intro p _ _; simp
  | cons n ns ih =>
    intro p hnd hmem
    have hstep : freshCount sd allS (p ++ [n]) < freshCount sd allS p :=
      freshCount_snoc sd allS p n (hmem n (List.mem_cons_self n ns)).2
        (hmem n (List.mem_cons_self n ns)).1
    have hns : ∀ x ∈ ns, x ∉ p ++ [n] ∧ x ∈ allS ++ sd.map Prod.fst := by
      intro x hx
      refine ⟨?_, (hmem x (List.mem_cons_of_mem n hx)).2⟩
      intro hc
      rcases List.mem_append.mp hc with h | h
      · exact (hmem x (List.mem_cons_of_mem n hx)).1 h
      · exact (List.nodup_cons.mp hnd).1 ((List.mem_singleton.mp h) ▸ hx)
    have hih := ih (p ++ [n]) (List.nodup_cons.mp hnd).2 hns
    have hassoc : p ++ n :: ns = (p ++ [n]) ++ ns := by simp
    rw [hassoc]
    simp only [List.length_cons]
    omega

theorem bfsLoop_spec (sd : SData) (allS : List String) :
    ∀ (fuel : Nat) (queue group processed : List String),
      queue.length + freshCount sd allS processed ≤ fuel →
      ∃ d, bfsLoop sd allS fuel queue group processed = (group ++ d, processed ++ d) ∧
        (∀ x ∈ d, x ∉ processed ∧ x ∈ allS ++ sd.map Prod.fst) ∧
        d.Nodup := by
  intro fuel
  induction fuel with
  | zero =>
    intro queue group processed hle
    have hq : queue = [] := List.length_eq_zero.mp (by omega)
    subst hq
    exact ⟨[], by simp [bfsLoop], by simp, List.nodup_nil⟩
  | succ fuel ih =>
    intro queue group processed hle
    cases queue with
    | nil => exact ⟨[], by simp [bfsLoop], by simp, List.nodup_nil⟩
    | cons c rest =>
      obtain ⟨hnd, hmem⟩ := bfsStep_spec sd allS c processed
      have hfc := freshCount_append sd allS (bfsStep sd allS c processed) processed hnd hmem
      have hle' : (rest ++ bfsStep sd allS c processed).length +
          freshCount sd allS (processed ++ bfsStep sd allS c processed) ≤ fuel := by
        simp only [List.length_append, List.length_cons] at hle ⊢
        omega
      obtain ⟨d, h1, h2, h3⟩ := ih (rest ++ bfsStep sd allS c processed)
        (group ++ bfsStep sd allS c processed) (processed ++ bfsStep sd allS c processed) hle'
      refine ⟨bfsStep sd allS c processed ++ d, ?_, ?_, ?_⟩
      · show bfsLoop sd allS (fuel + 1) (c :: rest) group processed = _
        simp only [bfsLoop]
        rw [h1]
        simp [List.append_assoc]
      · intro x hx
        rcases List.mem_append.mp hx with h | h
        · exact hmem x h
        · obtain ⟨hp, hu⟩ := h2 x h
          exact ⟨fun hc => hp (List.mem_append_left _ hc), hu⟩
      · rw [List.nodup_append]
        refine ⟨hnd, h3, ?_⟩
        intro a ha hc
        exact (h2 a hc).1 (List.mem_append_right _ ha)

theorem findConnectedSamples_spec (sd : SData) (allS : List String) (s : String)
    (processed : List String) (hs : s ∉ processed) :
    ∃ d, findConnectedSamples s sd allS processed = (s :: d, processed ++ s :: d) ∧
      (∀ x ∈ d, x ∉ processed ++ [s] ∧ x ∈ allS ++ sd.map Prod.fst) ∧
      (s :: d).Nodup := by
  have hfuel : [s].length + freshCount sd allS (processed ++ [s]) ≤
      (allS ++ sd.map Prod.fst).length + 1 := by
    have hb : freshCount sd allS (processed ++ [s]) ≤ (allS ++ sd.map Prod.fst).length :=
      List.length_filter_le _ _
    simp only [List.length_singleton]
    omega
  obtain ⟨d, h1, h2, h3⟩ := bfsLoop_spec sd allS ((allS ++ sd.map Prod.fst).length + 1)
    [s] [s] (processed ++ [s]) hfuel
  have hset : setAdd processed s = processed ++ [s] := by simp [setAdd, hs]
  refine ⟨d, ?_, h2, ?_⟩
  · unfold findConnectedSamples
    rw [hset, h1]
    simp
  · rw [List.nodup_cons]
    refine ⟨?_, h3⟩
    intro hc
    exact (h2 s hc).1 (List.mem_append_right _ (by simp))

theorem mem_dictSet {α : Type} :
    ∀ (d : List (String × α)) (k : String) (v : α) (kv : String × α),
      kv ∈ dictSet d k v → kv = (k, v) ∨ kv ∈ d := by
  intro d
  induction d with
  | nil =>
    intro k v kv h
    simp only [dictSet, List.mem_singleton] at h
    exact Or.inl h
  | cons kv0 rest ih =>
    intro k v kv h
    obtain ⟨k0, v0⟩ := kv0
    simp only [dictSet] at h
    by_cases he : k0 = k
    · rw [if_pos he] at h
      rcases List.mem_cons.mp h with h' | h'
      · exact Or.inl h'
      · exact Or.inr (List.mem_cons_of_mem _ h')
    · rw [if_neg he] at h
      rcases List.mem_cons.mp h with h' | h'
      · exact Or.inr (h' ▸ List.mem_cons_self _ _)
      · rcases ih k v kv h' with h'' | h''
        · exact Or.inl h''
        · exact Or.inr (List.mem_cons_of_mem _ h'')

theorem dictSet_fresh {α : Type} :
    ∀ (d : List (String × α)) (k : String) (v : α),
      (∀ kv ∈ d, kv.1 ≠ k) → dictSet d k v = d ++ [(k, v)] := by
  intro d
  induction d with
  | nil => intro k v _; rfl
  | cons kv0 rest ih =>
    intro k v h
    obtain ⟨k0, v0⟩ := kv0
    simp only [dictSet]
    rw [if_neg (h (k0, v0) (List.mem_cons_self _ _))]
    rw [ih k v (fun kv hkv => h kv (List.mem_cons_of_mem _ hkv))]
    simp

theorem parseStep_inv (acc : SData × List String) (r : List String)
    (h1 : acc.2.Nodup) (h2 : ∀ kv ∈ acc.1, kv.1 ∈ acc.2) :
    (parseStep acc r).2.Nodup ∧ ∀ kv ∈ (parseStep acc r).1, kv.1 ∈ (parseStep acc r).2 := by
  cases hp : parseRow r with
  | none =>
    simp only [parseStep, hp]
    exact ⟨h1, h2⟩
  | some nm =>
    obtain ⟨n, meta⟩ := nm
    by_cases hn : n ∈ acc.2
    · simp only [parseStep, hp, if_pos hn]
      refine ⟨h1, ?_⟩
      intro kv hkv
      rcases mem_dictSet acc.1 n meta kv hkv with rfl | hkv'
      · exact hn
      · exact h2 kv hkv'
    · simp only [parseStep, hp, if_neg hn]
      constructor
      · rw [List.nodup_append]
        exact ⟨h1, List.nodup_singleton n,
          fun a ha hb => hn ((List.mem_singleton.mp hb) ▸ ha)⟩
      · intro kv hkv
        rcases mem_dictSet acc.1 n meta kv hkv with rfl | hkv'
        · exact List.mem_append_right _ (by simp)
        · exact List.mem_append_left _ (h2 kv hkv')

theorem parse_foldl_inv :
    ∀ (rows : List (List String)) (acc : SData × List String),
      acc.2.Nodup → (∀ kv ∈ acc.1, kv.1 ∈ acc.2) →
      (rows.foldl parseStep acc).2.Nodup ∧
      ∀ kv ∈ (rows.foldl parseStep acc).1, kv.1 ∈ (rows.foldl parseStep acc).2 := by
  intro rows
  induction rows with
  | nil => intro acc h1 h2; exact ⟨h1, h2⟩
  | cons r rs ih =>
    intro acc h1 h2
    simp only [List.foldl_cons]
    obtain ⟨h1', h2'⟩ := parseStep_inv acc r h1 h2
    exact ih (parseStep acc r) h1' h2'

theorem parseSampleRows_inv (rows : List (List String)) :
    (parseSampleRows rows).2.Nodup ∧
    ∀ kv ∈ (parseSampleRows rows).1, kv.1 ∈ (parseSampleRows rows).2 := by
  unfold parseSampleRows
  exact parse_foldl_inv rows ([], []) List.nodup_nil (by simp)

theorem pyMinFrom_mem : ∀ (t : List String) (h : String), pyMinFrom h t ∈ h :: t := by
  intro t
  induction t with
  | nil => intro h; simp [pyMinFrom]
  | cons b t ih =>
    intro h
    have hstep : pyMinFrom h (b :: t) = pyMinFrom (if strLt b h then b else h) t := by
      simp [pyMinFrom]
    rw [hstep]
    rcases List.mem_cons.mp (ih (if strLt b h then b else h)) with he | ht
    · rw [he]
      split
      · exact List.mem_cons_of_mem _ (List.mem_cons_self _ _)
      · exact List.mem_cons_self _ _
    · exact List.mem_cons_of_mem _ (List.mem_cons_of_mem _ ht)

theorem minOfGroup_mem (g : List String) (h : g ≠ []) : minOfGroup g ∈ g := by
  cases g with
  | nil => exact absurd rfl h
  | cons a t => exact pyMinFrom_mem t a

theorem relationshipsLoop_spec (sd : SData) (allS : List String)
    (hk : ∀ kv ∈ sd, kv.1 ∈ allS) :
    ∀ (queue : List String) (rels : List (String × List String)) (processed : List String),
      (∀ x ∈ queue, x ∈ allS) →
      (∀ x ∈ processed, x ∈ allS) →
      processed.Nodup →
      (∀ kv ∈ rels, kv.1 ∈ processed) →
      ((rels.map Prod.snd).flatten).Perm processed →
      (rels.map Prod.snd).Pairwise (fun g g' => ∀ x, x ∈ g → x ∉ g') →
      ∃ processed',
        (∀ x ∈ processed', x ∈ allS) ∧
        processed'.Nodup ∧
        (∀ x ∈ processed, x ∈ processed') ∧
        (∀ x ∈ queue, x ∈ processed') ∧
        (((relationshipsLoop sd allS queue rels processed).map Prod.snd).flatten).Perm
          processed' ∧
        ((relationshipsLoop sd allS queue rels processed).map Prod.snd).Pairwise
          (fun g g' => ∀ x, x ∈ g → x ∉ g') := by
  intro queue
  induction queue with
  | nil =>
    intro rels processed _ hpall hpnd _ hperm hpw
    refine ⟨processed, hpall, hpnd, fun x hx => hx, by simp, ?_, ?_⟩
    · simpa only [relationshipsLoop] using hperm
    · simpa only [relationshipsLoop] using hpw
  | cons s rest ih =>
    intro rels processed hq hpall hpnd hkeys hperm hpw
    by_cases hs : s ∈ processed
    · obtain ⟨p', c1, c2, c3, c4, c5, c6⟩ := ih rels processed
        (fun x hx => hq x (List.mem_cons_of_mem s hx)) hpall hpnd hkeys hperm hpw
      have hred : relationshipsLoop sd allS (s :: rest) rels processed =
          relationshipsLoop sd allS rest rels processed := by
        simp only [relationshipsLoop, if_pos hs]
      refine ⟨p', c1, c2, c3, ?_, ?_, ?_⟩
      · intro x hx
        rcases List.mem_cons.mp hx with rfl | hx'
        · exact c3 _ hs
        · exact c4 x hx'
      · rw [hred]; exact c5
      · rw [hred]; exact c6
    · obtain ⟨d, hfc, hd, hgnd⟩ := findConnectedSamples_spec sd allS s processed hs
      have hsallS : s ∈ allS := hq s (List.mem_cons_self s rest)
      have hgall : ∀ x ∈ s :: d, x ∈ allS := by
        intro x hx
        rcases List.mem_cons.mp hx with rfl | hx'
        · exact hsallS
        · rcases List.mem_append.mp (hd x hx').2 with h | h
          · exact h
          · obtain ⟨kv, hkv, hkv1⟩ := List.mem_map.mp h
            exact hkv1 ▸ hk kv hkv
      have hgfresh : ∀ x ∈ s :: d, x ∉ processed := by
        intro x hx
        rcases List.mem_cons.mp hx with rfl | hx'
        · exact hs
        · exact fun hc => (hd x hx').1 (List.mem_append_left _ hc)
      have hpall' : ∀ x ∈ processed ++ s :: d, x ∈ allS := by
        intro x hx
        rcases List.mem_append.mp hx with h | h
        · exact hpall x h
        · exact hgall x h
      have hpnd' : (processed ++ s :: d).Nodup := by
        rw [List.nodup_append]
        exact ⟨hpnd, hgnd, fun a ha hb => hgfresh a hb ha⟩
      have hkey : minOfGroup (s :: d) ∈ s :: d := minOfGroup_mem _ (List.cons_ne_nil s d)
      have hfreshkey : ∀ kv ∈ rels, kv.1 ≠ minOfGroup (s :: d) := by
        intro kv hkv he
        exact hgfresh _ hkey (he ▸ hkeys kv hkv)
      have hset : dictSet rels (minOfGroup (s :: d)) (sortStrings (s :: d)) =
          rels ++ [(minOfGroup (s :: d), sortStrings (s :: d))] :=
        dictSet_fresh rels _ _ hfreshkey
      have hsortperm : (sortStrings (s :: d)).Perm (s :: d) := List.perm_insertionSort strLe _
      have hkeys' : ∀ kv ∈ dictSet rels (minOfGroup (s :: d)) (sortStrings (s :: d)),
          kv.1 ∈ processed ++ s :: d := by
        rw [hset]
        intro kv hkv
        rcases List.mem_append.mp hkv with h | h
        · exact List.mem_append_left _ (hkeys kv h)
        · rw [List.mem_singleton.mp h]
          exact List.mem_append_right _ hkey
      have hperm' : (((dictSet rels (minOfGroup (s :: d))
            (sortStrings (s :: d))).map Prod.snd).flatten).Perm (processed ++ s :: d) := by
        rw [hset, List.map_append, List.flatten_append]
        simp only [List.map_cons, List.map_nil, List.flatten_cons, List.flatten_nil,
          List.append_nil]
        exact List.Perm.append hperm hsortperm
      have hpw' : ((dictSet rels (minOfGroup (s :: d))
            (sortStrings (s :: d))).map Prod.snd).Pairwise
          (fun g g' => ∀ x, x ∈ g → x ∉ g') := by
        rw [hset, List.map_append, List.pairwise_append]
        refine ⟨hpw, by simp, ?_⟩
        intro g1 hg1 g2 hg2 x hxg1 hxg2
        simp only [List.map_cons, List.map_nil, List.mem_singleton] at hg2
        have hx1 : x ∈ processed := hperm.mem_iff.mp (List.mem_flatten.mpr ⟨g1, hg1, hxg1⟩)
        have hx2 : x ∈ s :: d := hsortperm.mem_iff.mp (hg2 ▸ hxg2)
        exact hgfresh x hx2 hx1
      obtain ⟨p', c1, c2, c3, c4, c5, c6⟩ := ih
        (dictSet rels (minOfGroup (s :: d)) (sortStrings (s :: d)))
        (processed ++ s :: d)
        (fun x hx => hq x (List.mem_cons_of_mem s hx))
        hpall' hpnd' hkeys' hperm' hpw'
      have hred : relationshipsLoop sd allS (s :: rest) rels processed =
          relationshipsLoop sd allS rest
            (dictSet rels (minOfGroup (s :: d)) (sortStrings (s :: d)))
            (processed ++ s :: d) := by
        simp only [relationshipsLoop, if_neg hs, hfc]
      refine ⟨p', c1, c2, ?_, ?_, ?_, ?_⟩
      · intro x hx
        exact c3 x (List.mem_append_left _ hx)
      · intro x hx
        rcases List.mem_cons.mp hx with rfl | hx'
        · exact c3 _ (List.mem_append_right _ (List.mem_cons_self _ _))
        · exact c4 x hx'
      · rw [hred]; exact c5
      · rw [hred]; exact c6

theorem filter_length_one_of_pairwise :
    ∀ (gs : List (List String)) (x : String),
      gs.Pairwise (fun g g' => ∀ y, y ∈ g → y ∉ g') →
      x ∈ gs.flatten →
      (gs.filter (fun g => decide (x ∈ g))).length = 1 := by
  intro gs
  induction gs with
  | nil => intro x _ hx; simp at hx
  | cons g gs ih =>
    intro x hpw hx
    rw [List.pairwise_cons] at hpw
    by_cases hg : x ∈ g
    · have hnil : gs.filter (fun g' => decide (x ∈ g')) = [] := by
        rw [List.filter_eq_nil]
        intro a ha
        simpa using hpw.1 a ha x hg
      simp [List.filter_cons, hg, hnil]
    · have hx' : x ∈ gs.flatten := by
        rcases List.mem_flatten.mp hx with ⟨l, hl, hxl⟩
        rcases List.mem_cons.mp hl with rfl | hl'
        · exact absurd hxl hg
        · exact List.mem_flatten.mpr ⟨l, hl', hxl⟩
      have hskip : (g :: gs).filter (fun g' => decide (x ∈ g')) =
          gs.filter (fun g' => decide (x ∈ g')) := by
        simp [List.filter_cons, hg]
      rw [hskip]
      exact ih x hpw.2 hx'

/-- C1: in non-cohort mode the groups produced by the Group Resolver
partition the Sample Set parsed from the metadata table: the union of the
groups has exactly the parsed sample names, the groups are pairwise
disjoint, and every sample name lies in exactly one group. -/
theorem C1_group_partition (rows : List (List String)) (sd : SData)
    (allS : List String) (rels : List (String × List String))
    (h1 : parseSampleFile rows = some (sd, allS))
    (h2 : findRelationships rows = some rels) :
    (∀ x, x ∈ (rels.map Prod.snd).flatten ↔ x ∈ allS) ∧
    (rels.map Prod.snd).Pairwise (fun g g' => ∀ x, x ∈ g → x ∉ g') ∧
    ∀ x ∈ allS, ((rels.map Prod.snd).filter (fun g => decide (x ∈ g))).length = 1 := by
  unfold findRelationships at h2
  rw [h1] at h2
  simp only [Option.map_some'] at h2
  have hrels : rels = relationshipsLoop sd allS allS [] [] := (Option.some.inj h2).symm
  have hinv : allS.Nodup ∧ ∀ kv ∈ sd, kv.1 ∈ allS := by
    cases rows with
    | nil => simp [parseSampleFile] at h1
    | cons r body =>
      simp only [parseSampleFile] at h1
      have hpb : parseSampleRows body = (sd, allS) := Option.some.inj h1
      have hbody := parseSampleRows_inv body
      rw [hpb] at hbody
      exact hbody
  obtain ⟨p', c1, _, _, c4, c5, c6⟩ := relationshipsLoop_spec sd allS hinv.2 allS [] []
    (fun x hx => hx) (by simp) List.nodup_nil (by simp) (by simp) (by simp)
  subst hrels
  refine ⟨?_, c6, ?_⟩
  · intro x
    constructor
    · intro hx
      exact c1 x (c5.mem_iff.mp hx)
    · intro hx
      exact c5.mem_iff.mpr (c4 x hx)
  · intro x hx
    exact filter_length_one_of_pairwise _ x c6 (c5.mem_iff.mpr (c4 x hx))

/-- Witness for C1 at a concrete three-sample table: alice names bob as a
relative, carol stands alone; the groups are {alice, bob} and {carol}. -/
theorem C1_group_partition_witness :
    parseSampleFile [["name", "rel"], ["alice", "bob"], ["bob", ""], ["carol", ""]] =
      some ([("alice", ["bob"]), ("bob", []), ("carol", [])], ["alice", "bob", "carol"]) ∧
    findRelationships [["name", "rel"], ["alice", "bob"], ["bob", ""], ["carol", ""]] =
      some [("alice", ["alice", "bob"]), ("carol", ["carol"])] ∧
    ((∀ x, x ∈ (([("alice", ["alice", "bob"]), ("carol", ["carol"])] :
        List (String × List String)).map Prod.snd).flatten ↔
        x ∈ ["alice", "bob", "carol"]) ∧
      (([("alice", ["alice", "bob"]), ("carol", ["carol"])] :
        List (String × List String)).map Prod.snd).Pairwise
        (fun g g' => ∀ x, x ∈ g → x ∉ g') ∧
      ∀ x ∈ ["alice", "bob", "carol"],
        ((([("alice", ["alice", "bob"]), ("carol", ["carol"])] :
          List (String × List String)).map Prod.snd).filter
            (fun g => decide (x ∈ g))).length = 1) :=
  ⟨rfl, rfl,
    C1_group_partition [["name", "rel"], ["alice", "bob"], ["bob", ""], ["carol", ""]]
      [("alice", ["bob"]), ("bob", []), ("carol", [])] ["alice", "bob", "carol"]
      [("alice", ["alice", "bob"]), ("carol", ["carol"])] rfl rfl⟩
